import Mathlib

/-!
# Subsonic service: session state machine, request builder and catalog decoder

A shallow embedding of `src/internet/subsonicservice.cpp`.

* The Qt classes the service drives (`QXmlStreamReader`, `QUrl`, `QStandardItem`,
  `QMap`, `QString::toInt`) are modelled by small executable definitions.
* The XML reader works on the token stream Qt's tokenizer delivers; after the
  last token every further read reports `Invalid`.
* Heap objects (`QStandardItem*`) are indices into an arena, `item_lookup_`
  holds such indices, a null or dangling pointer dereference is a fault.
* `Q_ASSERT` is compiled in only for debug builds; every function containing
  one takes the build flavour as the argument `debug`.
-/

namespace Subsonic

/-! ## Qt: XML stream reader -/

/-- Attributes of a start element, in document order. -/
abbrev Attrs := List (String × String)

/-- The call `QXmlStreamAttributes::value(name)`: the value of the first attribute with that
name, the empty string when there is none. -/
def Attrs.value (a : Attrs) (key : String) : String :=
  match a.lookup key with
  | some v => v
  | none => ""

/-- Tokens the reader reports. Everything that is neither a start nor an end
element (StartDocument, EndDocument, Characters, Comment, DTD, ...) is `other`. -/
inductive Token where
  | startElement (name : String) (attrs : Attrs)
  | endElement (name : String)
  | other
deriving DecidableEq, Repr

/-- What the reader is positioned on. -/
inductive Current where
  | noToken
  | invalid
  | tok (t : Token)
deriving DecidableEq, Repr

structure QXmlStreamReader where
  current : Current
  device : List Token
deriving DecidableEq, Repr

namespace QXmlStreamReader

/-- The constructor `QXmlStreamReader reader(reply)`. -/
def new (device : List Token) : QXmlStreamReader := ⟨.noToken, device⟩

/-- The accessor `name()`: set on start and end elements, empty elsewhere. -/
def name (r : QXmlStreamReader) : String :=
  match r.current with
  | .tok (.startElement n _) => n
  | .tok (.endElement n) => n
  | _ => ""

/-- The accessor `attributes()`: set on start elements, empty elsewhere. -/
def attributes (r : QXmlStreamReader) : Attrs :=
  match r.current with
  | .tok (.startElement _ a) => a
  | _ => []

/-- The loop of `readNextStartElement()`:
`while (readNext() != Invalid) { if (isEndElement()) return false; else if (isStartElement()) return true; } return false;` -/
def readNextStartElementFrom : List Token → Bool × QXmlStreamReader
  | [] => (false, ⟨.invalid, []⟩)
  | .startElement n a :: ts => (true, ⟨.tok (.startElement n a), ts⟩)
  | .endElement n :: ts => (false, ⟨.tok (.endElement n), ts⟩)
  | .other :: ts => readNextStartElementFrom ts

def readNextStartElement (r : QXmlStreamReader) : Bool × QXmlStreamReader :=
  readNextStartElementFrom r.device

/-- The loop of `skipCurrentElement()`:
`while (depth && readNext() != Invalid) { if (isEndElement()) --depth; else if (isStartElement()) ++depth; }` -/
def skipLoop (depth : Nat) (cur : Current) : List Token → QXmlStreamReader
  | [] => if depth = 0 then ⟨cur, []⟩ else ⟨.invalid, []⟩
  | t :: ts =>
    if depth = 0 then ⟨cur, t :: ts⟩
    else match t with
      | .endElement _ => skipLoop (depth - 1) (.tok t) ts
      | .startElement _ _ => skipLoop (depth + 1) (.tok t) ts
      | .other => skipLoop depth (.tok t) ts

def skipCurrentElement (r : QXmlStreamReader) : QXmlStreamReader :=
  skipLoop 1 r.current r.device

end QXmlStreamReader

/-! ## Qt: `QString::toInt` (base 10) -/

def isSpace (c : Char) : Bool :=
  c = ' ' || c = '\t' || c = '\n' || c = '\r' || c = '\x0b' || c = '\x0c'

def parseDigits (acc : Nat) : List Char → Option Nat
  | [] => some acc
  | c :: cs => if c.isDigit then parseDigits (10 * acc + (c.toNat - 48)) cs else none

def parseUnsigned : List Char → Option Nat
  | [] => none
  | c :: cs => parseDigits 0 (c :: cs)

def parseSigned : List Char → Option Int
  | '-' :: cs => (parseUnsigned cs).map (fun n => - (n : Int))
  | '+' :: cs => (parseUnsigned cs).map (fun n => (n : Int))
  | cs => (parseUnsigned cs).map (fun n => (n : Int))

def trimSpaces (cs : List Char) : List Char :=
  ((cs.dropWhile isSpace).reverse.dropWhile isSpace).reverse

/-- The call `QString::toInt()`: surrounding white space is ignored, an optional sign and
decimal digits are read; 0 when the text is not a number or does not fit `int`. -/
def toInt (s : String) : Int :=
  match parseSigned (trimSpaces s.toList) with
  | some v => if -2147483648 ≤ v ∧ v ≤ 2147483647 then v else 0
  | none => 0

/-! ## Qt: `QUrl` -/

structure QUrl where
  location : String
  queryItems : List (String × String)
deriving DecidableEq, Repr

def QUrl.addQueryItem (u : QUrl) (key value : String) : QUrl :=
  { u with queryItems := u.queryItems ++ [(key, value)] }

/-! ## Declarations of `subsonicservice.h` and `internetmodel.h` -/

/-- Modelled from the spec: `enum LoginState` of the missing header
`subsonicservice.h`; the spec lists Unknown, LoggedIn, BadServer, BadCredentials,
Unlicensed, OtherError. -/
inductive LoginState where
  | LoginState_Unknown
  | LoginState_Loggedin
  | LoginState_BadServer
  | LoginState_BadCredentials
  | LoginState_Unlicensed
  | LoginState_OtherError
deriving DecidableEq, Repr

export LoginState (LoginState_Unknown LoginState_Loggedin LoginState_BadServer
  LoginState_BadCredentials LoginState_Unlicensed LoginState_OtherError)

/-- Modelled from the spec: `ApiError_ParameterMissing` of `enum ApiError` in the
missing header, the Subsonic error code for a missing parameter. -/
def ApiError_ParameterMissing : Int := 10

/-- Modelled from the spec: `ApiError_BadCredentials` of `enum ApiError` in the
missing header, the Subsonic error code for a wrong user name or password. -/
def ApiError_BadCredentials : Int := 40

/-- Modelled from the spec: `ApiError_Unlicensed` of `enum ApiError` in the
missing header, the Subsonic error code for an expired trial. -/
def ApiError_Unlicensed : Int := 60

/-- Modelled from the spec: the values stored under `InternetModel::Role_Type`:
`InternetModel::Type_Service` and the service's own `Type_Artist`, `Type_Album`,
`Type_Track` (missing headers); `Type_Unset` is an item without that role. -/
inductive ItemType where
  | Type_Unset
  | Type_Service
  | Type_Artist
  | Type_Album
  | Type_Track
deriving DecidableEq, Repr

export ItemType (Type_Unset Type_Service Type_Artist Type_Album Type_Track)

/-- The completion handlers a request can be connected to. -/
inductive Slot where
  | onPingFinished
  | onGetIndexesFinished
  | onGetMusicDirectoryFinished
deriving DecidableEq, Repr

/-! ## The service state -/

/-- A `QStandardItem` with the three data roles the service uses. A pointer
`QStandardItem*` is a natural number, the index of the item in `State.items`. -/
structure QStandardItem where
  text : String
  type : ItemType
  canLazyLoad : Bool
  id : String
  children : List Nat
deriving DecidableEq, Repr

/-- The allocation `new QStandardItem(text)`: no data roles set, no rows. -/
def QStandardItem.new (text : String) : QStandardItem :=
  { text := text, type := Type_Unset, canLazyLoad := false, id := "", children := [] }

/-- A request handed to `QNetworkAccessManager::get` together with the slot
connected to its `finished()` signal. -/
structure Request where
  url : QUrl
  slot : Slot
  ignoreSslErrors : Bool
deriving DecidableEq, Repr

structure State where
  server_ : String
  username_ : String
  password_ : String
  login_state_ : LoginState
  /-- The pointer `root_`, set by `CreateRootItem`. -/
  root_ : Nat
  /-- All `QStandardItem` objects allocated so far. -/
  items : List QStandardItem
  /-- The map `item_lookup_`, a `QMap<QString, QStandardItem*>`. -/
  item_lookup_ : List (String × Nat)
  /-- How many times the cookie jar of `network_` was replaced. -/
  cookieJars : Nat
  /-- Requests issued by `Send`, oldest first. -/
  sent : List Request
  /-- Arguments of the emitted `LoginStateChanged` signals, oldest first. -/
  emitted : List LoginState
deriving DecidableEq, Repr

/-- The catalog: the item tree and the id lookup. -/
def State.catalog (s : State) : Nat × List QStandardItem × List (String × Nat) :=
  (s.root_, s.items, s.item_lookup_)

/-- The server configuration. -/
def State.config (s : State) : String × String × String :=
  (s.server_, s.username_, s.password_)

/-- The call `QMap::value(key)`: the stored pointer, null (`none`) when the key is absent. -/
def lookupValue (m : List (String × Nat)) (key : String) : Option Nat :=
  m.lookup key

/-- The call `QMap::insert(key, value)`: replaces the value of an existing key. -/
def lookupInsert (m : List (String × Nat)) (key : String) (value : Nat) : List (String × Nat) :=
  (key, value) :: m.filter (fun kv => kv.1 ≠ key)

/-! ## Request builder and dispatch -/

def kApiVersion : String := "1.7.0"
def kApiClientName : String := "Clementine"

def BuildRequestUrl (s : State) (view : String) : QUrl :=
  let url : QUrl := ⟨s.server_ ++ "rest/" ++ view ++ ".view", []⟩
  let url := url.addQueryItem "v" kApiVersion
  let url := url.addQueryItem "c" kApiClientName
  let url := url.addQueryItem "u" s.username_
  let url := url.addQueryItem "p" s.password_
  url

def Send (s : State) (url : QUrl) (slot : Slot) : State :=
  { s with sent := s.sent ++ [⟨url, slot, true⟩] }

def Ping (s : State) : State :=
  Send s (BuildRequestUrl s "ping") .onPingFinished

def GetIndexes (s : State) : State :=
  Send s (BuildRequestUrl s "getIndexes") .onGetIndexesFinished

def GetMusicDirectory (s : State) (id : String) : State :=
  let url := BuildRequestUrl s "getMusicDirectory"
  let url := url.addQueryItem "id" id
  Send s url .onGetMusicDirectoryFinished

/-- The overload `Login()`. -/
def Login (s : State) : State :=
  let s := { s with cookieJars := s.cookieJars + 1 }
  let s := { s with login_state_ := LoginState_Unknown }
  Ping s

/-- The overload `Login(server, username, password)`, under a name of its own. -/
def LoginWith (s : State) (server username password : String) : State :=
  let s := { s with server_ := server }
  let s := { s with username_ := username }
  let s := { s with password_ := password }
  Login s

/-! ## Session state machine -/

/-- A finished `QNetworkReply`: whether `error()` differs from `NoError`, and the
tokens its body yields. -/
structure Reply where
  error : Bool
  body : List Token
deriving DecidableEq, Repr

/-- The `switch (error)` of `onPingFinished`. -/
def loginStateOfError (error : Int) : LoginState :=
  if error = ApiError_ParameterMissing ∨ error = ApiError_BadCredentials then
    LoginState_BadCredentials
  else if error = ApiError_Unlicensed then
    LoginState_Unlicensed
  else
    LoginState_OtherError

def onPingFinished (s : State) (reply : Reply) : State :=
  let s :=
    if reply.error then
      { s with login_state_ := LoginState_BadServer }
    else
      let reader := QXmlStreamReader.new reply.body
      let reader := reader.readNextStartElement.2
      let status := reader.attributes.value "status"
      if status = "ok" then
        { s with login_state_ := LoginState_Loggedin }
      else
        let reader := reader.readNextStartElement.2
        let error := toInt (reader.attributes.value "code")
        { s with login_state_ := loginStateOfError error }
  { s with emitted := s.emitted ++ [s.login_state_] }

/-! ## Catalog decoder -/

/-- How a completion handler ends: normally, on a failed `Q_ASSERT` (debug builds),
on a null or dangling `QStandardItem*`, or with the loop budget of the model used up
(the budget is the number of unread tokens plus one and is never used up). -/
inductive Run (α : Type) where
  | done (a : α)
  | assertFailed
  | nullPointer
  | outOfFuel
deriving DecidableEq, Repr

def Run.bind {α β : Type} (r : Run α) (f : α → Run β) : Run β :=
  match r with
  | .done a => f a
  | .assertFailed => .assertFailed
  | .nullPointer => .nullPointer
  | .outOfFuel => .outOfFuel

/-- The check `Q_ASSERT(cond)`: aborts in debug builds, compiled out otherwise. -/
def qAssert {α : Type} (debug : Bool) (cond : Bool) (k : Run α) : Run α :=
  if debug && !cond then .assertFailed else k

/-- Allocation of a `QStandardItem`; returns the new pointer. -/
def allocItem (s : State) (item : QStandardItem) : State × Nat :=
  ({ s with items := s.items ++ [item] }, s.items.length)

/-- The call `parent->appendRow(item)`. -/
def appendRow (s : State) (parent : Option Nat) (item : Nat) : Run State :=
  match parent with
  | none => .nullPointer
  | some p =>
    match s.items[p]? with
    | none => .nullPointer
    | some it => .done { s with items := s.items.set p { it with children := it.children ++ [item] } }

/-- The tail shared by `ReadArtist`, `ReadAlbum` and `ReadTrack`:
`parent->appendRow(item); item_lookup_.insert(id, item); reader->skipCurrentElement();` -/
def attachItem (s : State) (reader : QXmlStreamReader) (parent : Option Nat)
    (id : String) (item : QStandardItem) : Run (State × QXmlStreamReader) :=
  let (s, ptr) := allocItem s item
  (appendRow s parent ptr).bind fun s =>
  let s := { s with item_lookup_ := lookupInsert s.item_lookup_ id ptr }
  .done (s, reader.skipCurrentElement)

def ReadArtist (debug : Bool) (s : State) (reader : QXmlStreamReader) (parent : Option Nat) :
    Run (State × QXmlStreamReader) :=
  qAssert debug (reader.name = "artist") <|
  let id := reader.attributes.value "id"
  let item := QStandardItem.new (reader.attributes.value "name")
  let item := { item with type := Type_Artist }
  let item := { item with canLazyLoad := true }
  let item := { item with id := id }
  attachItem s reader parent id item

def ReadAlbum (debug : Bool) (s : State) (reader : QXmlStreamReader) (parent : Option Nat) :
    Run (State × QXmlStreamReader) :=
  qAssert debug (reader.name = "child") <|
  let id := reader.attributes.value "id"
  let item := QStandardItem.new (reader.attributes.value "title")
  let item := { item with type := Type_Album }
  let item := { item with canLazyLoad := true }
  let item := { item with id := id }
  attachItem s reader parent id item

def ReadTrack (debug : Bool) (s : State) (reader : QXmlStreamReader) (parent : Option Nat) :
    Run (State × QXmlStreamReader) :=
  qAssert debug (reader.name = "child") <|
  let id := reader.attributes.value "id"
  let item := QStandardItem.new (reader.attributes.value "title")
  let item := { item with type := Type_Track }
  let item := { item with id := id }
  attachItem s reader parent id item

/-- The loop `while (reader->readNextStartElement()) ReadArtist(reader, parent);`. -/
def ReadIndexLoop (debug : Bool) (parent : Option Nat) :
    Nat → State → QXmlStreamReader → Run (State × QXmlStreamReader)
  | 0, _, _ => .outOfFuel
  | fuel + 1, s, reader =>
    match reader.readNextStartElement with
    | (false, reader) => .done (s, reader)
    | (true, reader) =>
      (ReadArtist debug s reader parent).bind fun sr => ReadIndexLoop debug parent fuel sr.1 sr.2

def ReadIndex (debug : Bool) (s : State) (reader : QXmlStreamReader) (parent : Option Nat) :
    Run (State × QXmlStreamReader) :=
  qAssert debug (reader.name = "index") <|
  ReadIndexLoop debug parent (reader.device.length + 1) s reader

/-- The `while` loop of `onGetIndexesFinished`. -/
def indexesLoop (debug : Bool) : Nat → State → QXmlStreamReader → Run State
  | 0, _, _ => .outOfFuel
  | fuel + 1, s, reader =>
    match reader.readNextStartElement with
    | (false, _) => .done s
    | (true, reader) =>
      if reader.name = "index" then
        (ReadIndex debug s reader (some s.root_)).bind fun sr => indexesLoop debug fuel sr.1 sr.2
      else if reader.name = "child" ∧ reader.attributes.value "isVideo" = "false" then
        (ReadTrack debug s reader (some s.root_)).bind fun sr => indexesLoop debug fuel sr.1 sr.2
      else
        indexesLoop debug fuel s reader.skipCurrentElement

def onGetIndexesFinished (debug : Bool) (s : State) (body : List Token) : Run State :=
  let reader := QXmlStreamReader.new body
  let reader := reader.readNextStartElement.2
  qAssert debug (reader.name = "subsonic-response") <|
  if reader.attributes.value "status" ≠ "ok" then
    .done s
  else
    let reader := reader.readNextStartElement.2
    qAssert debug (reader.name = "indexes") <|
    indexesLoop debug (reader.device.length + 1) s reader

/-- The `while` loop of `onGetMusicDirectoryFinished`. -/
def directoryLoop (debug : Bool) (parent : Option Nat) : Nat → State → QXmlStreamReader → Run State
  | 0, _, _ => .outOfFuel
  | fuel + 1, s, reader =>
    match reader.readNextStartElement with
    | (false, _) => .done s
    | (true, reader) =>
      if reader.attributes.value "isDir" = "true" then
        (ReadAlbum debug s reader parent).bind fun sr => directoryLoop debug parent fuel sr.1 sr.2
      else if reader.attributes.value "isVideo" = "false" then
        (ReadTrack debug s reader parent).bind fun sr => directoryLoop debug parent fuel sr.1 sr.2
      else
        directoryLoop debug parent fuel s reader.skipCurrentElement

def onGetMusicDirectoryFinished (debug : Bool) (s : State) (body : List Token) : Run State :=
  let reader := QXmlStreamReader.new body
  let reader := reader.readNextStartElement.2
  qAssert debug (reader.name = "subsonic-response") <|
  if reader.attributes.value "status" ≠ "ok" then
    .done s
  else
    let reader := reader.readNextStartElement.2
    qAssert debug (reader.name = "directory") <|
    let parent := lookupValue s.item_lookup_ (reader.attributes.value "id")
    directoryLoop debug parent (reader.device.length + 1) s reader

/-! ## Responses and the catalog they describe -/

/-- Well-formed XML content: a sequence of sibling nodes, each either an element
with attributes and content of its own, or something that is not an element
(text, comment, processing instruction). -/
inductive Forest where
  | nil
  | misc (rest : Forest)
  | elem (name : String) (attrs : Attrs) (body : Forest) (rest : Forest)
deriving DecidableEq, Repr

namespace Forest

/-- The tokens the reader reports for the content. -/
def tokens : Forest → List Token
  | nil => []
  | misc rest => .other :: rest.tokens
  | elem n a body rest => .startElement n a :: (body.tokens ++ .endElement n :: rest.tokens)

/-- The elements directly inside the content, in document order. -/
def elems : Forest → List (String × Attrs × Forest)
  | nil => []
  | misc rest => rest.elems
  | elem n a body rest => (n, a, body) :: rest.elems

/-- Concatenation of sibling sequences. -/
def append : Forest → Forest → Forest
  | nil, g => g
  | misc rest, g => misc (rest.append g)
  | elem n a body rest, g => elem n a body (rest.append g)

/-- The content `f` preceded by `k` non-element nodes. -/
def miscs : Nat → Forest → Forest
  | 0, f => f
  | k + 1, f => misc (miscs k f)

end Forest

/-- A response document: `pre` tokens before the outermost element (StartDocument,
comments), the outermost element with its content, and whatever follows it. -/
def document (pre : Nat) (root : String) (attrs : Attrs) (content : Forest)
    (post : List Token) : List Token :=
  List.replicate pre Token.other ++
    Token.startElement root attrs :: (content.tokens ++ Token.endElement root :: post)

/-- The response envelope with a payload element as the first element inside the
outermost one. -/
def response (pre : Nat) (root : String) (attrs : Attrs) (gap : Nat)
    (payload : String) (pattrs : Attrs) (entries : Forest) (rest : Forest)
    (post : List Token) : List Token :=
  document pre root attrs (Forest.miscs gap (Forest.elem payload pattrs entries rest)) post

/-- An Artist node: expandable, id and name from the attributes, no children. -/
def artistNode (a : Attrs) : QStandardItem :=
  { text := a.value "name", type := Type_Artist, canLazyLoad := true, id := a.value "id",
    children := [] }

/-- An Album node: expandable, id and title from the attributes, no children. -/
def albumNode (a : Attrs) : QStandardItem :=
  { text := a.value "title", type := Type_Album, canLazyLoad := true, id := a.value "id",
    children := [] }

/-- A Track node: a leaf, id and title from the attributes. -/
def trackNode (a : Attrs) : QStandardItem :=
  { text := a.value "title", type := Type_Track, canLazyLoad := false, id := a.value "id",
    children := [] }

/-- Spec, directory decoding: an Album for an entry flagged as directory, a Track
for a remaining entry flagged as not a video, nothing otherwise. -/
def directoryEntryNode (e : String × Attrs × Forest) : Option QStandardItem :=
  if e.2.1.value "isDir" = "true" then some (albumNode e.2.1)
  else if e.2.1.value "isVideo" = "false" then some (trackNode e.2.1)
  else none

/-- Spec, directory decoding: the nodes of a directory listing, in document order. -/
def directoryNodes (entries : Forest) : List QStandardItem :=
  entries.elems.filterMap directoryEntryNode

/-- Spec, index decoding: the nodes one element inside `indexes` stands for: the
artists of an `index` group, a Track for a bare `child` flagged as not a video. -/
def indexEntryNodes (e : String × Attrs × Forest) : List QStandardItem :=
  if e.1 = "index" then
    (e.2.2.elems.filter fun a => a.1 = "artist").map fun a => artistNode a.2.1
  else if e.1 = "child" ∧ e.2.1.value "isVideo" = "false" then [trackNode e.2.1]
  else []

/-- Spec, index decoding: the nodes of an index listing, in document order. -/
def indexNodes (entries : Forest) : List QStandardItem :=
  (entries.elems.map indexEntryNodes).flatten

/-- Spec, catalog store: `attach` appends the node as the last child of the parent
and registers it in the CatalogIndex under its id. -/
def attach (s : State) (parent : Nat) (node : QStandardItem) : State :=
  match s.items[parent]? with
  | none => s
  | some it =>
    { s with
      items := s.items.set parent { it with children := it.children ++ [s.items.length] } ++ [node]
      item_lookup_ := lookupInsert s.item_lookup_ node.id s.items.length }

/-- Spec, catalog store: the nodes attached one after the other under the same parent. -/
def attachAll (s : State) (parent : Nat) (nodes : List QStandardItem) : State :=
  nodes.foldl (fun s node => attach s parent node) s

/-- The children of the item `p`, in row order. -/
def State.childNodes (s : State) (p : Nat) : List QStandardItem :=
  match s.items[p]? with
  | none => []
  | some it => it.children.filterMap fun c => s.items[c]?

/-- Resolution of an id through `item_lookup_` to the item it points to. -/
def State.resolve (s : State) (id : String) : Option QStandardItem :=
  match lookupValue s.item_lookup_ id with
  | none => none
  | some p => s.items[p]?

/-- Pointer discipline of the arena: `root_` and every pointer stored in
`item_lookup_` is allocated, and the rows of an item are allocated items created
after it. -/
def State.valid (s : State) : Bool :=
  decide (s.root_ < s.items.length) &&
  (s.items.enum.all fun qi => qi.2.children.all fun c => decide (qi.1 < c ∧ c < s.items.length)) &&
  (s.item_lookup_.all fun kv => decide (kv.2 < s.items.length))

/-- The rows of `p` are allocated items created after `p`. -/
def rowsAllocated (s : State) (p : Nat) : Prop :=
  ∀ it, s.items[p]? = some it → ∀ c ∈ it.children, p < c ∧ c < s.items.length

/-- What is read off the final state of a run that ended normally. -/
def Run.map {α β : Type} (f : α → β) (r : Run α) : Run β :=
  r.bind fun a => .done (f a)

/-! ## Example states -/

/-- A service whose catalog holds only the root item made by `CreateRootItem`. -/
def exampleRoot : State :=
  { server_ := "http://host/", username_ := "user", password_ := "secret",
    login_state_ := LoginState_Unknown, root_ := 0,
    items := [{ QStandardItem.new "Subsonic" with canLazyLoad := true }],
    item_lookup_ := [], cookieJars := 0, sent := [], emitted := [] }

/-- The catalog after the index listing delivered the artist with id 1. -/
def exampleArtist : State :=
  { exampleRoot with
    items := [{ QStandardItem.new "Subsonic" with canLazyLoad := true, children := [1] },
      artistNode [("id", "1"), ("name", "A")]]
    item_lookup_ := [("1", 1)] }

/-! ## Construction and the lazy-load entry point -/

def kServiceName : String := "Subsonic"

/-- The constructor `SubsonicService::SubsonicService`: a fresh network manager,
`login_state_(LoginState_OtherError)`, an empty `item_lookup_`; the strings are
default-constructed. The constructor does not initialise `root_`; the model holds 0
there, which points at nothing while no item is allocated. -/
def SubsonicService : State :=
  { server_ := "", username_ := "", password_ := "",
    login_state_ := LoginState_OtherError, root_ := 0, items := [],
    item_lookup_ := [], cookieJars := 0, sent := [], emitted := [] }

/-- The root item of the service; returns the new `root_`. -/
def CreateRootItem (s : State) : State × Nat :=
  let item := QStandardItem.new kServiceName
  let item := { item with canLazyLoad := true }
  let (s, root) := allocItem s item
  ({ s with root_ := root }, root)

/-- The `switch` of `LazyPopulate` on the `Role_Type` of the item. -/
def LazyPopulate (s : State) (item : Nat) : Run State :=
  match s.items[item]? with
  | none => .nullPointer
  | some it =>
    match it.type with
    | Type_Service => .done (GetIndexes s)
    | Type_Artist => .done (GetMusicDirectory s it.id)
    | Type_Album => .done (GetMusicDirectory s it.id)
    | _ => .done s

/-! ## Sequences of completions and what they preserve -/

/-- The id the directory handler resolves: the `id` attribute of the element it
reads after the outermost one. -/
def directoryId (body : List Token) : String :=
  (QXmlStreamReader.new body).readNextStartElement.2.readNextStartElement.2.attributes.value "id"

/-- A completed catalog request: the handler that runs, the build flavour and the
reply body. -/
inductive Completion where
  | indexes (debug : Bool) (body : List Token)
  | directory (debug : Bool) (body : List Token)
deriving DecidableEq, Repr

def complete (s : State) : Completion → Run State
  | .indexes debug body => onGetIndexesFinished debug s body
  | .directory debug body => onGetMusicDirectoryFinished debug s body

/-- The completions delivered one after the other on the event loop. -/
def completeAll (s : State) : List Completion → Run State
  | [] => .done s
  | c :: cs => (complete s c).bind fun s2 => completeAll s2 cs

/-- The item `q` of the old state is still there with the same text, type, lazy-load
flag and id, and its former rows are the first of its rows afterwards. -/
def keepsItem (s s2 : State) (q : Nat) : Prop :=
  ∀ it, s.items[q]? = some it →
    ∃ it2, s2.items[q]? = some it2 ∧ it2.text = it.text ∧ it2.type = it.type ∧
      it2.canLazyLoad = it.canLazyLoad ∧ it2.id = it.id ∧ it.children <+: it2.children

/-- Frame of a decoding step with target `target`: the root pointer stays, every
item stays with its data and its rows as a prefix, and the items other than the
target are not changed at all. -/
def preserves (s s2 : State) (target : Option Nat) : Prop :=
  s2.root_ = s.root_ ∧ s.items.length ≤ s2.items.length ∧
  (∀ q, keepsItem s s2 q) ∧
  (∀ q, q < s.items.length → some q ≠ target → s2.items[q]? = s.items[q]?)

/-- The nodes of the tree: the root and, with an item, its rows. -/
inductive Reach (s : State) : Nat → Prop where
  | root : Reach s s.root_
  | row (p c : Nat) (it : QStandardItem) :
      Reach s p → s.items[p]? = some it → c ∈ it.children → Reach s c

/-- Consistency of `item_lookup_` with the tree: an entry points to a node below the
root whose id is the key of the entry, and the id of every node below the root is a
key. -/
def Consistent (s : State) : Prop :=
  s.root_ < s.items.length ∧
  (∀ k p, lookupValue s.item_lookup_ k = some p →
    p ≠ s.root_ ∧ Reach s p ∧ ∃ it, s.items[p]? = some it ∧ it.id = k) ∧
  (∀ q it, Reach s q → q ≠ s.root_ → s.items[q]? = some it →
    lookupValue s.item_lookup_ it.id ≠ none)

/-- What attaching `node` under `p` leaves behind: `p` has the new pointer as its
last row, the new pointer is the node, the id of the node resolves to it, and every
other key of `item_lookup_` maps as before. -/
def Attached (s s2 : State) (p : Nat) (node : QStandardItem) : Prop :=
  (∃ it, s.items[p]? = some it ∧
    s2.items[p]? = some { it with children := it.children ++ [s.items.length] }) ∧
  s2.items[s.items.length]? = some node ∧
  lookupValue s2.item_lookup_ node.id = some s.items.length ∧
  s2.resolve node.id = some node ∧
  (∀ k, k ≠ node.id → lookupValue s2.item_lookup_ k = lookupValue s.item_lookup_ k)

/-- The service root as the model sees it once the service is added: the root item
carries `InternetModel::Type_Service` under `Role_Type`. -/
def exampleService : State :=
  { exampleRoot with
    items := [{ QStandardItem.new "Subsonic" with canLazyLoad := true, type := Type_Service }] }

/-- The catalog after the listing of directory 1 delivered album 2 and track 3. -/
def exampleAlbum : State :=
  { exampleRoot with
    items := [{ QStandardItem.new "Subsonic" with canLazyLoad := true, children := [1] },
      { text := "A", type := Type_Artist, canLazyLoad := true, id := "1", children := [2, 3] },
      { text := "Album1", type := Type_Album, canLazyLoad := true, id := "2", children := [] },
      { text := "Track1", type := Type_Track, canLazyLoad := false, id := "3", children := [] }]
    item_lookup_ := [("3", 3), ("2", 2), ("1", 1)] }

/-! ## Reader lemmas -/

theorem readNextStartElementFrom_others (k : Nat) (ts : List Token) :
    QXmlStreamReader.readNextStartElementFrom (List.replicate k Token.other ++ ts) =
      QXmlStreamReader.readNextStartElementFrom ts := by
  induction k with
  | zero => rfl
  | succ k ih =>
    rw [List.replicate_succ, List.cons_append]
    simpa [QXmlStreamReader.readNextStartElementFrom] using ih

theorem tokens_miscs (k : Nat) (f : Forest) :
    (Forest.miscs k f).tokens = List.replicate k Token.other ++ f.tokens := by
  induction k with
  | zero => rfl
  | succ k ih => simp [Forest.miscs, Forest.tokens, ih, List.replicate_succ]

theorem tokens_append (f g : Forest) : (f.append g).tokens = f.tokens ++ g.tokens := by
  induction f with
  | nil => rfl
  | misc rest ih => simp [Forest.append, Forest.tokens, ih]
  | elem n a body rest _ ih => simp [Forest.append, Forest.tokens, ih]

theorem elems_append (f g : Forest) : (f.append g).elems = f.elems ++ g.elems := by
  induction f with
  | nil => rfl
  | misc rest ih => simp [Forest.append, Forest.elems, ih]
  | elem n a body rest _ ih => simp [Forest.append, Forest.elems, ih]

theorem skipLoop_zero (cur : Current) (ts : List Token) :
    QXmlStreamReader.skipLoop 0 cur ts = ⟨cur, ts⟩ := by
  cases ts <;> simp [QXmlStreamReader.skipLoop]

theorem skipLoop_start (d : Nat) (cur : Current) (n : String) (a : Attrs) (ts : List Token) :
    QXmlStreamReader.skipLoop (d + 1) cur (Token.startElement n a :: ts) =
      QXmlStreamReader.skipLoop (d + 2) (Current.tok (Token.startElement n a)) ts := by
  simp [QXmlStreamReader.skipLoop]

theorem skipLoop_end (d : Nat) (cur : Current) (n : String) (ts : List Token) :
    QXmlStreamReader.skipLoop (d + 1) cur (Token.endElement n :: ts) =
      QXmlStreamReader.skipLoop d (Current.tok (Token.endElement n)) ts := by
  simp [QXmlStreamReader.skipLoop]

theorem skipLoop_other (d : Nat) (cur : Current) (ts : List Token) :
    QXmlStreamReader.skipLoop (d + 1) cur (Token.other :: ts) =
      QXmlStreamReader.skipLoop (d + 1) (Current.tok Token.other) ts := by
  simp [QXmlStreamReader.skipLoop]

theorem skipLoop_tokens (f : Forest) :
    ∀ (d : Nat) (cur : Current) (n : String) (ts : List Token),
      QXmlStreamReader.skipLoop (d + 1) cur (f.tokens ++ Token.endElement n :: ts) =
        QXmlStreamReader.skipLoop d (Current.tok (Token.endElement n)) ts := by
  induction f with
  | nil => intro d cur n ts; simp [Forest.tokens, skipLoop_end]
  | misc rest ih =>
    intro d cur n ts
    rw [Forest.tokens, List.cons_append, skipLoop_other]
    exact ih d _ n ts
  | elem m a body rest ihb ihr =>
    intro d cur n ts
    rw [Forest.tokens, List.cons_append, List.append_assoc, List.cons_append, skipLoop_start,
      ihb (d + 1)]
    exact ihr d _ n ts

theorem skipCurrentElement_elem (cur : Current) (body : Forest) (n : String) (ts : List Token) :
    QXmlStreamReader.skipCurrentElement ⟨cur, body.tokens ++ Token.endElement n :: ts⟩ =
      ⟨Current.tok (Token.endElement n), ts⟩ := by
  simp [QXmlStreamReader.skipCurrentElement, skipLoop_tokens, skipLoop_zero]

theorem elems_length_le (f : Forest) : f.elems.length ≤ f.tokens.length := by
  induction f with
  | nil => simp [Forest.elems]
  | misc rest ih => simp [Forest.elems, Forest.tokens]; omega
  | elem n a body rest _ ih => simp [Forest.elems, Forest.tokens]; omega

/-! ## Attaching nodes -/

theorem attachItem_eq (s : State) (reader : QXmlStreamReader) (p : Nat) (item : QStandardItem)
    (hp : p < s.items.length) :
    attachItem s reader (some p) item.id item =
      Run.done (attach s p item, reader.skipCurrentElement) := by
  have h1 : (s.items ++ [item])[p]? = some s.items[p] := by
    rw [List.getElem?_append_left hp, List.getElem?_eq_getElem hp]
  have h2 : s.items[p]? = some s.items[p] := List.getElem?_eq_getElem hp
  simp only [attachItem, allocItem, appendRow, h1, Run.bind, attach, h2]
  rw [List.set_append_left _ _ hp]

theorem attach_length (s : State) (p : Nat) (node : QStandardItem) (hp : p < s.items.length) :
    (attach s p node).items.length = s.items.length + 1 := by
  have h2 : s.items[p]? = some s.items[p] := List.getElem?_eq_getElem hp
  simp [attach, h2]

theorem attachAll_cons (s : State) (p : Nat) (node : QStandardItem) (nodes : List QStandardItem) :
    attachAll s p (node :: nodes) = attachAll (attach s p node) p nodes := rfl

theorem attachAll_append (s : State) (p : Nat) (xs ys : List QStandardItem) :
    attachAll s p (xs ++ ys) = attachAll (attachAll s p xs) p ys := by
  simp [attachAll, List.foldl_append]

theorem attachAll_length (nodes : List QStandardItem) :
    ∀ (s : State) (p : Nat), p < s.items.length →
      (attachAll s p nodes).items.length = s.items.length + nodes.length := by
  induction nodes with
  | nil => intro s p _; rfl
  | cons x xs ih =>
    intro s p hp
    have hl := attach_length s p x hp
    have hp2 : p < (attach s p x).items.length := by omega
    rw [attachAll_cons, ih (attach s p x) p hp2, hl, List.length_cons]
    omega

theorem attach_root (s : State) (p : Nat) (node : QStandardItem) :
    (attach s p node).root_ = s.root_ := by
  unfold attach; split <;> rfl

theorem attachAll_root (nodes : List QStandardItem) :
    ∀ (s : State) (p : Nat), (attachAll s p nodes).root_ = s.root_ := by
  induction nodes with
  | nil => intro s p; rfl
  | cons x xs ih => intro s p; rw [attachAll_cons, ih, attach_root]

/-! ## The element readers -/

theorem ReadArtist_eq (debug : Bool) (s : State) (n : String) (a : Attrs) (ts : List Token)
    (p : Nat) (hp : p < s.items.length) (hn : debug = true → n = "artist") :
    ReadArtist debug s ⟨Current.tok (Token.startElement n a), ts⟩ (some p) =
      Run.done (attach s p (artistNode a),
        QXmlStreamReader.skipCurrentElement ⟨Current.tok (Token.startElement n a), ts⟩) := by
  have hq : (debug && !decide (n = "artist")) = false := by
    cases debug
    · rfl
    · simp [hn rfl]
  simp only [ReadArtist, qAssert, QXmlStreamReader.name, hq, QXmlStreamReader.attributes]
  exact attachItem_eq s _ p (artistNode a) hp

theorem ReadAlbum_eq (debug : Bool) (s : State) (n : String) (a : Attrs) (ts : List Token)
    (p : Nat) (hp : p < s.items.length) (hn : debug = true → n = "child") :
    ReadAlbum debug s ⟨Current.tok (Token.startElement n a), ts⟩ (some p) =
      Run.done (attach s p (albumNode a),
        QXmlStreamReader.skipCurrentElement ⟨Current.tok (Token.startElement n a), ts⟩) := by
  have hq : (debug && !decide (n = "child")) = false := by
    cases debug
    · rfl
    · simp [hn rfl]
  simp only [ReadAlbum, qAssert, QXmlStreamReader.name, hq, QXmlStreamReader.attributes]
  exact attachItem_eq s _ p (albumNode a) hp

theorem ReadTrack_eq (debug : Bool) (s : State) (n : String) (a : Attrs) (ts : List Token)
    (p : Nat) (hp : p < s.items.length) (hn : debug = true → n = "child") :
    ReadTrack debug s ⟨Current.tok (Token.startElement n a), ts⟩ (some p) =
      Run.done (attach s p (trackNode a),
        QXmlStreamReader.skipCurrentElement ⟨Current.tok (Token.startElement n a), ts⟩) := by
  have hq : (debug && !decide (n = "child")) = false := by
    cases debug
    · rfl
    · simp [hn rfl]
  simp only [ReadTrack, qAssert, QXmlStreamReader.name, hq, QXmlStreamReader.attributes]
  exact attachItem_eq s _ p (trackNode a) hp

/-! ## The decoding loops on well-formed content -/

theorem ReadIndexLoop_other (debug : Bool) (parent : Option Nat) (fuel : Nat) (s : State)
    (cur cur2 : Current) (ts : List Token) :
    ReadIndexLoop debug parent fuel s ⟨cur, Token.other :: ts⟩ =
      ReadIndexLoop debug parent fuel s ⟨cur2, ts⟩ := by
  cases fuel <;> rfl

theorem ReadIndexLoop_eq (debug : Bool) (p : Nat) (f : Forest) :
    ∀ (fuel : Nat) (s : State) (cur : Current) (n : String) (ts : List Token),
      p < s.items.length → f.elems.length < fuel →
      (debug = true → ∀ e ∈ f.elems, e.1 = "artist") →
      ReadIndexLoop debug (some p) fuel s ⟨cur, f.tokens ++ Token.endElement n :: ts⟩ =
        Run.done (attachAll s p (f.elems.map fun e => artistNode e.2.1),
          ⟨Current.tok (Token.endElement n), ts⟩) := by
  induction f with
  | nil =>
    intro fuel s cur n ts _ hf _
    cases fuel with
    | zero => simp at hf
    | succ fuel => rfl
  | misc rest ih =>
    intro fuel s cur n ts hp hf hn
    rw [Forest.tokens, List.cons_append, ReadIndexLoop_other debug (some p) fuel s cur cur]
    exact ih fuel s cur n ts hp hf hn
  | elem m a body rest _ ih =>
    intro fuel s cur n ts hp hf hn
    cases fuel with
    | zero => simp at hf
    | succ fuel =>
      have hstep : ReadIndexLoop debug (some p) (fuel + 1) s
            ⟨cur, (Forest.elem m a body rest).tokens ++ Token.endElement n :: ts⟩ =
          (ReadArtist debug s ⟨Current.tok (Token.startElement m a),
              body.tokens ++ Token.endElement m :: (rest.tokens ++ Token.endElement n :: ts)⟩
            (some p)).bind fun sr => ReadIndexLoop debug (some p) fuel sr.1 sr.2 := by
        simp [Forest.tokens, ReadIndexLoop, QXmlStreamReader.readNextStartElement,
          QXmlStreamReader.readNextStartElementFrom]
      have hm : debug = true → m = "artist" := fun hd => hn hd (m, a, body) (by simp [Forest.elems])
      rw [hstep, ReadArtist_eq debug s m a _ p hp hm, skipCurrentElement_elem]
      simp only [Run.bind, Forest.elems, List.map_cons, attachAll_cons]
      apply ih fuel
      · rw [attach_length s p _ hp]; omega
      · simpa [Forest.elems] using hf
      · intro hd e he
        exact hn hd e (by simp [Forest.elems, he])

theorem directoryLoop_other (debug : Bool) (parent : Option Nat) (fuel : Nat) (s : State)
    (cur cur2 : Current) (ts : List Token) :
    directoryLoop debug parent fuel s ⟨cur, Token.other :: ts⟩ =
      directoryLoop debug parent fuel s ⟨cur2, ts⟩ := by
  cases fuel <;> rfl

theorem directoryNodes_nil : directoryNodes Forest.nil = [] := rfl

theorem directoryNodes_misc (rest : Forest) :
    directoryNodes (Forest.misc rest) = directoryNodes rest := rfl

theorem directoryNodes_elem (m : String) (a : Attrs) (body rest : Forest) :
    directoryNodes (Forest.elem m a body rest) =
      (directoryEntryNode (m, a, body)).toList ++ directoryNodes rest := by
  simp only [directoryNodes, Forest.elems, List.filterMap_cons]
  cases directoryEntryNode (m, a, body) <;> rfl

theorem tokens_elem_append (m : String) (a : Attrs) (body rest : Forest) (tl : List Token) :
    (Forest.elem m a body rest).tokens ++ tl =
      Token.startElement m a :: (body.tokens ++ Token.endElement m :: (rest.tokens ++ tl)) := by
  simp [Forest.tokens]

theorem directoryLoop_start (debug : Bool) (parent : Option Nat) (fuel : Nat) (s : State)
    (cur : Current) (m : String) (a : Attrs) (ts : List Token) :
    directoryLoop debug parent (fuel + 1) s ⟨cur, Token.startElement m a :: ts⟩ =
      if a.value "isDir" = "true" then
        (ReadAlbum debug s ⟨Current.tok (Token.startElement m a), ts⟩ parent).bind
          fun sr => directoryLoop debug parent fuel sr.1 sr.2
      else if a.value "isVideo" = "false" then
        (ReadTrack debug s ⟨Current.tok (Token.startElement m a), ts⟩ parent).bind
          fun sr => directoryLoop debug parent fuel sr.1 sr.2
      else
        directoryLoop debug parent fuel s
          (QXmlStreamReader.skipCurrentElement ⟨Current.tok (Token.startElement m a), ts⟩) := rfl

theorem directoryLoop_eq (debug : Bool) (p : Nat) (f : Forest) :
    ∀ (fuel : Nat) (s : State) (cur : Current) (n : String) (ts : List Token),
      p < s.items.length → f.elems.length < fuel →
      (debug = true → ∀ e ∈ f.elems, directoryEntryNode e ≠ none → e.1 = "child") →
      directoryLoop debug (some p) fuel s ⟨cur, f.tokens ++ Token.endElement n :: ts⟩ =
        Run.done (attachAll s p (directoryNodes f)) := by
  induction f with
  | nil =>
    intro fuel s cur n ts _ hf _
    cases fuel with
    | zero => simp at hf
    | succ fuel => rfl
  | misc rest ih =>
    intro fuel s cur n ts hp hf hn
    rw [Forest.tokens, List.cons_append, directoryLoop_other debug (some p) fuel s cur cur]
    exact ih fuel s cur n ts hp hf hn
  | elem m a body rest _ ih =>
    intro fuel s cur n ts hp hf hn
    cases fuel with
    | zero => simp at hf
    | succ fuel =>
      have hf2 : rest.elems.length < fuel := by simpa [Forest.elems] using hf
      have hn2 : debug = true → ∀ e ∈ rest.elems, directoryEntryNode e ≠ none → e.1 = "child" :=
        fun hd e he => hn hd e (by simp [Forest.elems, he])
      have hm : directoryEntryNode (m, a, body) ≠ none → debug = true → m = "child" :=
        fun hne hd => hn hd (m, a, body) (by simp [Forest.elems]) hne
      rw [directoryNodes_elem]
      rw [tokens_elem_append, directoryLoop_start]
      by_cases hdir : a.value "isDir" = "true"
      · have hnode : directoryEntryNode (m, a, body) = some (albumNode a) := by
          simp [directoryEntryNode, hdir]
        rw [if_pos hdir, ReadAlbum_eq debug s m a _ p hp (hm (by simp [hnode])),
          skipCurrentElement_elem, hnode]
        simp only [Run.bind, Option.toList, List.singleton_append, attachAll_cons]
        exact ih fuel _ _ n ts (by rw [attach_length s p _ hp]; omega) hf2 hn2
      · by_cases hvid : a.value "isVideo" = "false"
        · have hnode : directoryEntryNode (m, a, body) = some (trackNode a) := by
            simp [directoryEntryNode, hdir, hvid]
          rw [if_neg hdir, if_pos hvid, ReadTrack_eq debug s m a _ p hp (hm (by simp [hnode])),
            skipCurrentElement_elem, hnode]
          simp only [Run.bind, Option.toList, List.singleton_append, attachAll_cons]
          exact ih fuel _ _ n ts (by rw [attach_length s p _ hp]; omega) hf2 hn2
        · have hnode : directoryEntryNode (m, a, body) = none := by
            simp [directoryEntryNode, hdir, hvid]
          rw [if_neg hdir, if_neg hvid, skipCurrentElement_elem, hnode]
          simp only [Option.toList, List.nil_append]
          exact ih fuel s _ n ts hp hf2 hn2

theorem indexesLoop_other (debug : Bool) (fuel : Nat) (s : State)
    (cur cur2 : Current) (ts : List Token) :
    indexesLoop debug fuel s ⟨cur, Token.other :: ts⟩ =
      indexesLoop debug fuel s ⟨cur2, ts⟩ := by
  cases fuel <;> rfl

theorem indexesLoop_start (debug : Bool) (fuel : Nat) (s : State)
    (cur : Current) (m : String) (a : Attrs) (ts : List Token) :
    indexesLoop debug (fuel + 1) s ⟨cur, Token.startElement m a :: ts⟩ =
      if m = "index" then
        (ReadIndex debug s ⟨Current.tok (Token.startElement m a), ts⟩ (some s.root_)).bind
          fun sr => indexesLoop debug fuel sr.1 sr.2
      else if m = "child" ∧ a.value "isVideo" = "false" then
        (ReadTrack debug s ⟨Current.tok (Token.startElement m a), ts⟩ (some s.root_)).bind
          fun sr => indexesLoop debug fuel sr.1 sr.2
      else
        indexesLoop debug fuel s
          (QXmlStreamReader.skipCurrentElement ⟨Current.tok (Token.startElement m a), ts⟩) := rfl

theorem indexNodes_misc (rest : Forest) : indexNodes (Forest.misc rest) = indexNodes rest := rfl

theorem indexNodes_elem (m : String) (a : Attrs) (body rest : Forest) :
    indexNodes (Forest.elem m a body rest) = indexEntryNodes (m, a, body) ++ indexNodes rest := by
  simp [indexNodes, Forest.elems]

theorem ReadIndex_eq (debug : Bool) (s : State) (a : Attrs) (body : Forest) (ts : List Token)
    (p : Nat) (hp : p < s.items.length) (hart : ∀ g ∈ body.elems, g.1 = "artist") :
    ReadIndex debug s
        ⟨Current.tok (Token.startElement "index" a), body.tokens ++ Token.endElement "index" :: ts⟩
        (some p) =
      Run.done (attachAll s p (indexEntryNodes ("index", a, body)),
        ⟨Current.tok (Token.endElement "index"), ts⟩) := by
  have hq : ∀ k : Run (State × QXmlStreamReader), qAssert debug true k = k := by
    intro k; cases debug <;> simp [qAssert]
  have hlen : body.elems.length < (body.tokens ++ Token.endElement "index" :: ts).length + 1 := by
    have := elems_length_le body
    simp only [List.length_append, List.length_cons]
    omega
  have hfil : (body.elems.filter fun g => decide (g.1 = "artist")) = body.elems := by
    rw [List.filter_eq_self]
    intro g hg
    simpa using hart g hg
  simp only [ReadIndex, QXmlStreamReader.name, decide_True, hq]
  rw [ReadIndexLoop_eq debug p body _ s _ "index" ts hp hlen (fun _ => hart)]
  simp [indexEntryNodes, hfil]

theorem indexesLoop_eq (debug : Bool) (f : Forest) :
    ∀ (fuel : Nat) (s : State) (cur : Current) (n : String) (ts : List Token),
      s.root_ < s.items.length → f.elems.length < fuel →
      (∀ e ∈ f.elems, e.1 = "index" → ∀ g ∈ e.2.2.elems, g.1 = "artist") →
      indexesLoop debug fuel s ⟨cur, f.tokens ++ Token.endElement n :: ts⟩ =
        Run.done (attachAll s s.root_ (indexNodes f)) := by
  induction f with
  | nil =>
    intro fuel s cur n ts _ hf _
    cases fuel with
    | zero => simp at hf
    | succ fuel => rfl
  | misc rest ih =>
    intro fuel s cur n ts hp hf hn
    rw [Forest.tokens, List.cons_append, indexesLoop_other debug fuel s cur cur]
    exact ih fuel s cur n ts hp hf hn
  | elem m a body rest _ ih =>
    intro fuel s cur n ts hp hf hn
    cases fuel with
    | zero => simp at hf
    | succ fuel =>
      have hf2 : rest.elems.length < fuel := by simpa [Forest.elems] using hf
      have hn2 : ∀ e ∈ rest.elems, e.1 = "index" → ∀ g ∈ e.2.2.elems, g.1 = "artist" :=
        fun e he => hn e (by simp [Forest.elems, he])
      have hnext : ∀ nodes : List QStandardItem,
          indexesLoop debug fuel (attachAll s s.root_ nodes)
              ⟨Current.tok (Token.endElement m), rest.tokens ++ Token.endElement n :: ts⟩ =
            Run.done (attachAll s s.root_ (nodes ++ indexNodes rest)) := by
        intro nodes
        have hlen := attachAll_length nodes s s.root_ hp
        have hroot := attachAll_root nodes s s.root_
        rw [ih fuel (attachAll s s.root_ nodes) _ n ts (by rw [hroot, hlen]; exact Nat.lt_add_right _ hp) hf2 hn2,
          hroot, attachAll_append]
      rw [tokens_elem_append, indexesLoop_start, indexNodes_elem]
      by_cases hidx : m = "index"
      · subst hidx
        have hart : ∀ g ∈ body.elems, g.1 = "artist" :=
          hn ("index", a, body) (by simp [Forest.elems]) rfl
        rw [if_pos rfl, ReadIndex_eq debug s a body _ s.root_ hp hart]
        simp only [Run.bind]
        exact hnext _
      · by_cases htrk : m = "child" ∧ a.value "isVideo" = "false"
        · have hnode : indexEntryNodes (m, a, body) = [trackNode a] := by
            simp [indexEntryNodes, hidx, htrk]
          rw [if_neg hidx, if_pos htrk, ReadTrack_eq debug s m a _ s.root_ hp (fun _ => htrk.1),
            skipCurrentElement_elem, hnode]
          simp only [Run.bind]
          have := hnext [trackNode a]
          simpa [attachAll] using this
        · have hnode : indexEntryNodes (m, a, body) = [] := by
            simp only [indexEntryNodes, if_neg hidx, if_neg htrk]
          rw [if_neg hidx, if_neg htrk, skipCurrentElement_elem, hnode]
          have := hnext []
          simpa [attachAll] using this

/-! ## What attaching does to the rows of the parent -/

theorem valid_root (s : State) (h : s.valid = true) : s.root_ < s.items.length := by
  simp only [State.valid, Bool.and_eq_true, decide_eq_true_eq] at h
  exact h.1.1

theorem valid_lookup (s : State) (h : s.valid = true) (id : String) (p : Nat)
    (hl : lookupValue s.item_lookup_ id = some p) : p < s.items.length := by
  simp only [State.valid, Bool.and_eq_true, List.all_eq_true, decide_eq_true_eq] at h
  have hmem : (id, p) ∈ s.item_lookup_ := by
    unfold lookupValue at hl
    generalize s.item_lookup_ = m at hl
    induction m with
    | nil => simp at hl
    | cons kv m ih =>
      obtain ⟨k, v⟩ := kv
      by_cases hk : id = k
      · subst hk
        simp at hl
        simp [hl]
      · have hb : (id == k) = false := by simpa using hk
        simp only [List.lookup, hb] at hl
        exact List.mem_cons_of_mem _ (ih hl)
  exact h.2 (id, p) hmem

theorem valid_rows (s : State) (h : s.valid = true) (p : Nat) : rowsAllocated s p := by
  simp only [State.valid, Bool.and_eq_true, List.all_eq_true, decide_eq_true_eq] at h
  intro it hit c hc
  exact h.1.2 (p, it) (List.mk_mem_enum_iff_getElem?.mpr hit) c hc

theorem childNodes_attach (s : State) (p : Nat) (x : QStandardItem) (hp : p < s.items.length)
    (hrows : rowsAllocated s p) :
    (attach s p x).childNodes p = s.childNodes p ++ [x] := by
  have h2 : s.items[p]? = some s.items[p] := List.getElem?_eq_getElem hp
  have hrows2 := hrows _ h2
  have hset : ∀ it2 : QStandardItem, (s.items.set p it2 ++ [x])[p]? = some it2 := by
    intro it2
    rw [List.getElem?_append_left (by simpa using hp)]
    exact List.getElem?_set_self hp
  simp only [attach, h2, State.childNodes, hset, List.filterMap_append]
  congr 1
  · apply List.filterMap_congr
    intro c hc
    have hc2 := hrows2 c hc
    rw [List.getElem?_append_left (by simpa using hc2.2), List.getElem?_set_ne (by omega)]
  · simp [List.getElem?_append_right]

theorem rowsAllocated_attach (s : State) (p : Nat) (x : QStandardItem) (hp : p < s.items.length)
    (hrows : rowsAllocated s p) : rowsAllocated (attach s p x) p := by
  have h2 : s.items[p]? = some s.items[p] := List.getElem?_eq_getElem hp
  have hrows2 := hrows _ h2
  intro it hit c hc
  have hlen := attach_length s p x hp
  simp only [attach, h2] at hit
  rw [List.getElem?_append_left (by simpa using hp), List.getElem?_set_self hp] at hit
  cases hit
  simp only [List.mem_append, List.mem_singleton] at hc
  rcases hc with hc | hc
  · have := hrows2 c hc
    omega
  · omega

theorem childNodes_attachAll (nodes : List QStandardItem) :
    ∀ (s : State) (p : Nat), p < s.items.length → rowsAllocated s p →
      (attachAll s p nodes).childNodes p = s.childNodes p ++ nodes := by
  induction nodes with
  | nil => intro s p _ _; simp [attachAll]
  | cons x xs ih =>
    intro s p hp hrows
    have hlen := attach_length s p x hp
    have hp2 : p < (attach s p x).items.length := by omega
    rw [attachAll_cons, ih (attach s p x) p hp2 (rowsAllocated_attach s p x hp hrows),
      childNodes_attach s p x hp hrows, List.append_assoc, List.singleton_append]

/-! ## Text to number -/

theorem value_of_lookup_none (a : Attrs) (key : String) (h : a.lookup key = none) :
    a.value key = "" := by
  simp [Attrs.value, h]

/-! ## Ping completion -/

theorem readNextStartElement_new_others (k : Nat) (n : String) (a : Attrs) (ts : List Token) :
    (QXmlStreamReader.new
        (List.replicate k Token.other ++ Token.startElement n a :: ts)).readNextStartElement =
      (true, ⟨Current.tok (Token.startElement n a), ts⟩) := by
  simp only [QXmlStreamReader.new, QXmlStreamReader.readNextStartElement,
    readNextStartElementFrom_others]
  rfl

theorem readNextStartElement_others (cur : Current) (k : Nat) (n : String) (a : Attrs)
    (ts : List Token) :
    QXmlStreamReader.readNextStartElement
        ⟨cur, List.replicate k Token.other ++ Token.startElement n a :: ts⟩ =
      (true, ⟨Current.tok (Token.startElement n a), ts⟩) := by
  simp only [QXmlStreamReader.readNextStartElement, readNextStartElementFrom_others]
  rfl

theorem onPingFinished_status_ok (s : State) (pre : Nat) (root : String) (attrs : Attrs)
    (rest : List Token) (hok : attrs.value "status" = "ok") :
    onPingFinished s ⟨false, List.replicate pre Token.other ++ Token.startElement root attrs :: rest⟩ =
      { s with login_state_ := LoginState_Loggedin, emitted := s.emitted ++ [LoginState_Loggedin] } := by
  simp [onPingFinished, readNextStartElement_new_others, QXmlStreamReader.attributes, hok]

theorem qAssert_true {α : Type} (debug : Bool) (k : Run α) : qAssert debug true k = k := by
  cases debug <;> simp [qAssert]

theorem qAssert_of_imp {α : Type} (debug : Bool) (c : Prop) [Decidable c] (k : Run α)
    (h : debug = true → c) : qAssert debug (decide c) k = k := by
  cases debug
  · simp [qAssert]
  · simp [qAssert, h rfl]

theorem readNextStartElement_response (pre : Nat) (root : String) (attrs : Attrs)
    (content : Forest) (post : List Token) :
    (QXmlStreamReader.new (document pre root attrs content post)).readNextStartElement =
      (true, ⟨Current.tok (Token.startElement root attrs),
        content.tokens ++ Token.endElement root :: post⟩) :=
  readNextStartElement_new_others pre root attrs _

theorem readNextStartElement_payload (cur : Current) (gap : Nat) (payload : String)
    (pattrs : Attrs) (entries rest : Forest) (tl : List Token) :
    QXmlStreamReader.readNextStartElement
        ⟨cur, (Forest.miscs gap (Forest.elem payload pattrs entries rest)).tokens ++ tl⟩ =
      (true, ⟨Current.tok (Token.startElement payload pattrs),
        entries.tokens ++ Token.endElement payload :: (rest.tokens ++ tl)⟩) := by
  rw [tokens_miscs, List.append_assoc, tokens_elem_append]
  exact readNextStartElement_others cur gap payload pattrs _

theorem elems_length_lt_device (entries : Forest) (n : String) (tl : List Token) :
    entries.elems.length < (entries.tokens ++ Token.endElement n :: tl).length + 1 := by
  have := elems_length_le entries
  simp only [List.length_append, List.length_cons]
  omega

theorem onGetIndexesFinished_eq (debug : Bool) (s : State) (pre : Nat) (root : String)
    (rattrs : Attrs) (gap : Nat) (iattrs : Attrs) (entries rest : Forest) (post : List Token)
    (hok : rattrs.value "status" = "ok")
    (hroot : debug = true → root = "subsonic-response")
    (hp : s.root_ < s.items.length)
    (hart : ∀ e ∈ entries.elems, e.1 = "index" → ∀ g ∈ e.2.2.elems, g.1 = "artist") :
    onGetIndexesFinished debug s
        (response pre root rattrs gap "indexes" iattrs entries rest post) =
      Run.done (attachAll s s.root_ (indexNodes entries)) := by
  simp only [onGetIndexesFinished, response, readNextStartElement_response,
    readNextStartElement_payload, QXmlStreamReader.name, QXmlStreamReader.attributes,
    qAssert_of_imp debug _ _ hroot, hok, ne_eq, not_true_eq_false, if_false, decide_True,
    qAssert_true]
  exact indexesLoop_eq debug entries _ s _ "indexes" _ hp (elems_length_lt_device _ _ _) hart

theorem onGetMusicDirectoryFinished_eq (debug : Bool) (s : State) (pre : Nat) (root : String)
    (rattrs : Attrs) (gap : Nat) (dattrs : Attrs) (entries rest : Forest) (post : List Token)
    (p : Nat)
    (hok : rattrs.value "status" = "ok")
    (hroot : debug = true → root = "subsonic-response")
    (hres : lookupValue s.item_lookup_ (dattrs.value "id") = some p)
    (hp : p < s.items.length)
    (hnames : debug = true → ∀ e ∈ entries.elems, directoryEntryNode e ≠ none → e.1 = "child") :
    onGetMusicDirectoryFinished debug s
        (response pre root rattrs gap "directory" dattrs entries rest post) =
      Run.done (attachAll s p (directoryNodes entries)) := by
  simp only [onGetMusicDirectoryFinished, response, readNextStartElement_response,
    readNextStartElement_payload, QXmlStreamReader.name, QXmlStreamReader.attributes,
    qAssert_of_imp debug _ _ hroot, hok, ne_eq, not_true_eq_false, if_false, decide_True,
    qAssert_true, hres]
  exact directoryLoop_eq debug p entries _ s _ "directory" _ hp (elems_length_lt_device _ _ _)
    hnames

theorem directoryNodes_append (f g : Forest) :
    directoryNodes (f.append g) = directoryNodes f ++ directoryNodes g := by
  simp [directoryNodes, elems_append, List.filterMap_append]

/-! ## Session state machine: ping completion -/

/-- C2: after a ping completion without transport error whose outermost element has
status "ok", the login state is LoggedIn and exactly one LoginStateChanged signal
was emitted, carrying LoggedIn; nothing else in the service changed. -/
theorem onPingFinished_ok (s : State) (pre : Nat) (root : String) (attrs : Attrs)
    (rest : List Token) (hok : attrs.value "status" = "ok") :
    (onPingFinished s ⟨false,
        List.replicate pre Token.other ++ Token.startElement root attrs :: rest⟩).login_state_ =
      LoginState_Loggedin ∧
    (onPingFinished s ⟨false,
        List.replicate pre Token.other ++ Token.startElement root attrs :: rest⟩).emitted =
      s.emitted ++ [LoginState_Loggedin] ∧
    (onPingFinished s ⟨false,
        List.replicate pre Token.other ++ Token.startElement root attrs :: rest⟩).catalog =
      s.catalog := by
  rw [onPingFinished_status_ok s pre root attrs rest hok]
  exact ⟨rfl, rfl, rfl⟩

/-- C2, at a concrete response: an "ok" ping on a fresh service logs in and emits one signal. -/
theorem onPingFinished_ok_witness :
    Attrs.value [("status", "ok")] "status" = "ok" ∧
    (onPingFinished exampleRoot ⟨false, List.replicate 1 Token.other ++
        Token.startElement "subsonic-response" [("status", "ok")] ::
        [Token.endElement "subsonic-response"]⟩).emitted = [LoginState_Loggedin] :=
  ⟨by decide,
    (onPingFinished_ok exampleRoot 1 "subsonic-response" [("status", "ok")]
      [Token.endElement "subsonic-response"] (by decide)).2.1⟩

/-- C3: a ping completion that reports a transport error sets the login state to
BadServer whatever the reply body holds, and leaves the item tree and the id lookup
as they were. -/
theorem onPingFinished_transport_error (s : State) (body : List Token) :
    (onPingFinished s ⟨true, body⟩).login_state_ = LoginState_BadServer ∧
    (onPingFinished s ⟨true, body⟩).catalog = s.catalog ∧
    (onPingFinished s ⟨true, body⟩).emitted = s.emitted ++ [LoginState_BadServer] := by
  simp [onPingFinished, State.catalog]

/-! ## Catalog decoder: directory and index listings -/

/-- C4: for a valid catalog and a directory response with status "ok" whose `directory`
id resolves through `item_lookup_` to the item `p`, `onGetMusicDirectoryFinished`
returns and the rows of `p` afterwards are its former rows followed, in document
order, by one node per qualifying child entry: an expandable Album for an entry with
isDir="true", a Track leaf for a remaining entry with isVideo="false", each with the
id and title of its entry. -/
theorem onGetMusicDirectoryFinished_appends (debug : Bool) (s : State) (pre : Nat)
    (root : String) (rattrs : Attrs) (gap : Nat) (dattrs : Attrs) (entries rest : Forest)
    (post : List Token) (p : Nat)
    (hvalid : s.valid = true)
    (hok : rattrs.value "status" = "ok")
    (hres : lookupValue s.item_lookup_ (dattrs.value "id") = some p)
    (hroot : debug = true → root = "subsonic-response")
    (hnames : debug = true → ∀ e ∈ entries.elems, e.1 = "child") :
    ∃ s2, onGetMusicDirectoryFinished debug s
        (response pre root rattrs gap "directory" dattrs entries rest post) = Run.done s2 ∧
      s2 = attachAll s p (directoryNodes entries) ∧
      s2.childNodes p = s.childNodes p ++ directoryNodes entries := by
  have hp := valid_lookup s hvalid _ p hres
  refine ⟨_, onGetMusicDirectoryFinished_eq debug s pre root rattrs gap dattrs entries rest post p
    hok hroot hres hp (fun hd e he _ => hnames hd e he), rfl, ?_⟩
  exact childNodes_attachAll _ s p hp (valid_rows s hvalid p)

/-- C4, the scenario of the spec: the listing of directory 1 with the album 2 and the
track 3 gives Artist 1 the rows Album(2, "Album1"), Track(3, "Track1"). -/
theorem onGetMusicDirectoryFinished_appends_witness :
    ∃ s2, onGetMusicDirectoryFinished true exampleArtist
        (response 1 "subsonic-response" [("status", "ok")] 0 "directory" [("id", "1")]
          (Forest.elem "child" [("isDir", "true"), ("id", "2"), ("title", "Album1")] Forest.nil
            (Forest.elem "child"
              [("isDir", "false"), ("isVideo", "false"), ("id", "3"), ("title", "Track1")]
              Forest.nil Forest.nil))
          Forest.nil [Token.other]) = Run.done s2 ∧
      s2.childNodes 1 =
        [{ text := "Album1", type := Type_Album, canLazyLoad := true, id := "2", children := [] },
         { text := "Track1", type := Type_Track, canLazyLoad := false, id := "3",
           children := [] }] := by
  obtain ⟨s2, h1, _, h3⟩ := onGetMusicDirectoryFinished_appends true exampleArtist 1
    "subsonic-response" [("status", "ok")] 0 [("id", "1")]
    (Forest.elem "child" [("isDir", "true"), ("id", "2"), ("title", "Album1")] Forest.nil
      (Forest.elem "child"
        [("isDir", "false"), ("isVideo", "false"), ("id", "3"), ("title", "Track1")]
        Forest.nil Forest.nil))
    Forest.nil [Token.other] 1 (by decide) (by decide) (by decide) (fun _ => rfl) (by decide)
  exact ⟨s2, h1, by rw [h3]; decide⟩

/-- Index decoding on the payload of the protocol: for a valid catalog and an index
response with status "ok" whose `index` groups hold only `artist` elements,
`onGetIndexesFinished` returns and the rows of the root afterwards are its former rows
followed, in document order, by one expandable Artist without rows for each `artist`
entry of each `index` group and one Track for each bare `child` entry with
isVideo="false"; a bare entry flagged isVideo="true" gives no node. -/
theorem onGetIndexesFinished_appends (debug : Bool) (s : State) (pre : Nat)
    (root : String) (rattrs : Attrs) (gap : Nat) (iattrs : Attrs) (entries rest : Forest)
    (post : List Token)
    (hvalid : s.valid = true)
    (hok : rattrs.value "status" = "ok")
    (hroot : debug = true → root = "subsonic-response")
    (hart : ∀ e ∈ entries.elems, e.1 = "index" → ∀ g ∈ e.2.2.elems, g.1 = "artist") :
    (∃ s2, onGetIndexesFinished debug s
        (response pre root rattrs gap "indexes" iattrs entries rest post) = Run.done s2 ∧
      s2 = attachAll s s.root_ (indexNodes entries) ∧
      s2.childNodes s2.root_ = s.childNodes s.root_ ++ indexNodes entries) ∧
    (∀ a body, a.value "isVideo" = "true" → indexEntryNodes ("child", a, body) = []) := by
  have hp := valid_root s hvalid
  refine ⟨⟨_, onGetIndexesFinished_eq debug s pre root rattrs gap iattrs entries rest post
    hok hroot hp hart, rfl, ?_⟩, ?_⟩
  · rw [attachAll_root]
    exact childNodes_attachAll _ s s.root_ hp (valid_rows s hvalid s.root_)
  · intro a body hv
    have hne : ¬ (a.value "isVideo" = "false") := by rw [hv]; decide
    simp [indexEntryNodes, hne]

/-- The round-trip scenario of the spec: one `index` with the artist (id 1, name A) on
a catalog holding only the root gives the root the single row Artist(1, "A"),
expandable, without rows. -/
theorem onGetIndexesFinished_appends_witness :
    ∃ s2, onGetIndexesFinished true exampleRoot
        (response 1 "subsonic-response" [("status", "ok")] 0 "indexes" []
          (Forest.elem "index" [("name", "A")]
            (Forest.elem "artist" [("id", "1"), ("name", "A")] Forest.nil Forest.nil) Forest.nil)
          Forest.nil [Token.other]) = Run.done s2 ∧
      s2.childNodes s2.root_ =
        [{ text := "A", type := Type_Artist, canLazyLoad := true, id := "1", children := [] }] := by
  obtain ⟨⟨s2, h1, _, h3⟩, _⟩ := onGetIndexesFinished_appends true exampleRoot 1
    "subsonic-response" [("status", "ok")] 0 []
    (Forest.elem "index" [("name", "A")]
      (Forest.elem "artist" [("id", "1"), ("name", "A")] Forest.nil Forest.nil) Forest.nil)
    Forest.nil [Token.other] (by decide) (by decide) (fun _ => rfl) (by decide)
  exact ⟨s2, h1, by rw [h3]; decide⟩

/-- C6, as stated, fails: a directory entry flagged isVideo="true" that also carries
isDir="true" is not skipped, it becomes an Album row of the parent. -/
theorem directory_video_flagged_directory_kept :
    Run.map (fun s2 => s2.childNodes 1)
      (onGetMusicDirectoryFinished true exampleArtist
        (response 1 "subsonic-response" [("status", "ok")] 0 "directory" [("id", "1")]
          (Forest.elem "child"
            [("isDir", "true"), ("isVideo", "true"), ("id", "9"), ("title", "Clips")]
            Forest.nil Forest.nil)
          Forest.nil [Token.other])) =
      Run.done [{ text := "Clips", type := Type_Album, canLazyLoad := true, id := "9",
                  children := [] }] := by
  decide

/-- C6, amended: in a directory response with status "ok" a child entry flagged
isVideo="true" whose isDir is not "true" is skipped, whatever its name, its other
attributes and its content: the handler returns the same state as for the response
without that entry, and the parent gains only the nodes of the other entries. -/
theorem directory_video_entry_skipped (debug : Bool) (s : State) (pre : Nat)
    (root : String) (rattrs : Attrs) (gap : Nat) (dattrs : Attrs)
    (front : Forest) (m : String) (a : Attrs) (body : Forest) (back rest : Forest)
    (post : List Token) (p : Nat)
    (hvalid : s.valid = true)
    (hok : rattrs.value "status" = "ok")
    (hres : lookupValue s.item_lookup_ (dattrs.value "id") = some p)
    (hroot : debug = true → root = "subsonic-response")
    (hnames : debug = true → ∀ e ∈ (front.append back).elems, e.1 = "child")
    (hvideo : a.value "isVideo" = "true")
    (hdir : a.value "isDir" ≠ "true") :
    ∃ s2, onGetMusicDirectoryFinished debug s
        (response pre root rattrs gap "directory" dattrs
          (front.append (Forest.elem m a body back)) rest post) = Run.done s2 ∧
      onGetMusicDirectoryFinished debug s
        (response pre root rattrs gap "directory" dattrs (front.append back) rest post) =
        Run.done s2 ∧
      s2.childNodes p = s.childNodes p ++ directoryNodes (front.append back) := by
  have hp := valid_lookup s hvalid _ p hres
  have hnone : directoryEntryNode (m, a, body) = none := by
    have hne : ¬ (a.value "isVideo" = "false") := by rw [hvideo]; decide
    simp [directoryEntryNode, hdir, hne]
  have hnodes : directoryNodes (front.append (Forest.elem m a body back)) =
      directoryNodes (front.append back) := by
    rw [directoryNodes_append, directoryNodes_append, directoryNodes_elem, hnone]
    rfl
  have hnames2 : debug = true → ∀ e ∈ (front.append (Forest.elem m a body back)).elems,
      directoryEntryNode e ≠ none → e.1 = "child" := by
    intro hd e he hne
    rw [elems_append] at he
    rcases List.mem_append.mp he with he | he
    · exact hnames hd e (by rw [elems_append]; exact List.mem_append_left _ he)
    · rcases List.mem_cons.mp he with he | he
      · subst he; exact absurd hnone hne
      · exact hnames hd e (by rw [elems_append]; exact List.mem_append_right _ he)
  refine ⟨attachAll s p (directoryNodes (front.append back)), ?_, ?_, ?_⟩
  · rw [← hnodes]
    exact onGetMusicDirectoryFinished_eq debug s pre root rattrs gap dattrs _ rest post p
      hok hroot hres hp hnames2
  · exact onGetMusicDirectoryFinished_eq debug s pre root rattrs gap dattrs _ rest post p
      hok hroot hres hp (fun hd e he _ => hnames hd e he)
  · exact childNodes_attachAll _ s p hp (valid_rows s hvalid p)

/-- C6, amended, at a concrete response: a video between an album and a track leaves
Artist 1 with the album and the track only. -/
theorem directory_video_entry_skipped_witness :
    ∃ s2, onGetMusicDirectoryFinished true exampleArtist
        (response 1 "subsonic-response" [("status", "ok")] 0 "directory" [("id", "1")]
          ((Forest.elem "child" [("isDir", "true"), ("id", "2"), ("title", "Album1")] Forest.nil
              Forest.nil).append
            (Forest.elem "child"
              [("isDir", "false"), ("isVideo", "true"), ("id", "8"), ("title", "Clip")]
              Forest.nil
              (Forest.elem "child"
                [("isDir", "false"), ("isVideo", "false"), ("id", "3"), ("title", "Track1")]
                Forest.nil Forest.nil)))
          Forest.nil [Token.other]) = Run.done s2 ∧
      s2.childNodes 1 =
        [{ text := "Album1", type := Type_Album, canLazyLoad := true, id := "2", children := [] },
         { text := "Track1", type := Type_Track, canLazyLoad := false, id := "3",
           children := [] }] := by
  obtain ⟨s2, h1, _, h3⟩ := directory_video_entry_skipped true exampleArtist 1
    "subsonic-response" [("status", "ok")] 0 [("id", "1")]
    (Forest.elem "child" [("isDir", "true"), ("id", "2"), ("title", "Album1")] Forest.nil
      Forest.nil)
    "child" [("isDir", "false"), ("isVideo", "true"), ("id", "8"), ("title", "Clip")] Forest.nil
    (Forest.elem "child"
      [("isDir", "false"), ("isVideo", "false"), ("id", "3"), ("title", "Track1")]
      Forest.nil Forest.nil)
    Forest.nil [Token.other] 1 (by decide) (by decide) (by decide) (fun _ => rfl) (by decide)
    (by decide) (by decide)
  exact ⟨s2, h1, by rw [h3]; decide⟩

/-- C7, where the code departs from it: inside an `index` group `ReadIndex` hands every
element to `ReadArtist`, so an unknown element becomes an Artist row of the root in a
release build and stops the run on the `Q_ASSERT` of `ReadArtist` in a debug build;
inside `directory` the name is never tested, so an unknown element carrying
isDir="true" becomes an Album row (release) or stops on the `Q_ASSERT` of `ReadAlbum`
(debug). Directly inside `indexes` the unknown element is skipped. -/
theorem unknown_element_not_skipped :
    Run.map (fun s2 => s2.childNodes s2.root_)
      (onGetIndexesFinished false exampleRoot
        (response 1 "subsonic-response" [("status", "ok")] 0 "indexes" []
          (Forest.elem "index" [("name", "X")]
            (Forest.elem "shortcut" [("id", "9"), ("name", "Extra")] Forest.nil Forest.nil)
            Forest.nil)
          Forest.nil [Token.other])) =
      Run.done [{ text := "Extra", type := Type_Artist, canLazyLoad := true, id := "9",
                  children := [] }] ∧
    onGetIndexesFinished true exampleRoot
        (response 1 "subsonic-response" [("status", "ok")] 0 "indexes" []
          (Forest.elem "index" [("name", "X")]
            (Forest.elem "shortcut" [("id", "9"), ("name", "Extra")] Forest.nil Forest.nil)
            Forest.nil)
          Forest.nil [Token.other]) = Run.assertFailed ∧
    Run.map (fun s2 => s2.childNodes 1)
      (onGetMusicDirectoryFinished false exampleArtist
        (response 1 "subsonic-response" [("status", "ok")] 0 "directory" [("id", "1")]
          (Forest.elem "extra" [("isDir", "true"), ("id", "9"), ("title", "Extra")]
            Forest.nil Forest.nil)
          Forest.nil [Token.other])) =
      Run.done [{ text := "Extra", type := Type_Album, canLazyLoad := true, id := "9",
                  children := [] }] ∧
    onGetMusicDirectoryFinished true exampleArtist
        (response 1 "subsonic-response" [("status", "ok")] 0 "directory" [("id", "1")]
          (Forest.elem "extra" [("isDir", "true"), ("id", "9"), ("title", "Extra")]
            Forest.nil Forest.nil)
          Forest.nil [Token.other]) = Run.assertFailed ∧
    onGetIndexesFinished true exampleRoot
        (response 1 "subsonic-response" [("status", "ok")] 0 "indexes" []
          (Forest.elem "shortcut" [("id", "9"), ("name", "Extra")] Forest.nil Forest.nil)
          Forest.nil [Token.other]) = Run.done exampleRoot := by
  decide

/-- C8: an index or directory response whose outermost element does not have status
"ok" makes both `onGetIndexesFinished` and `onGetMusicDirectoryFinished` return with
the service state, and so the item tree and the id lookup, exactly as it was, whatever
follows the outermost start element. -/
theorem handlers_status_not_ok_noop (debug : Bool) (s : State) (pre : Nat) (root : String)
    (rattrs : Attrs) (rest : List Token)
    (hfail : rattrs.value "status" ≠ "ok")
    (hroot : debug = true → root = "subsonic-response") :
    onGetIndexesFinished debug s
        (List.replicate pre Token.other ++ Token.startElement root rattrs :: rest) = Run.done s ∧
    onGetMusicDirectoryFinished debug s
        (List.replicate pre Token.other ++ Token.startElement root rattrs :: rest) = Run.done s := by
  constructor
  · simp only [onGetIndexesFinished, readNextStartElement_new_others, QXmlStreamReader.name,
      QXmlStreamReader.attributes, qAssert_of_imp debug _ _ hroot, ne_eq, hfail,
      not_false_eq_true, if_true]
  · simp only [onGetMusicDirectoryFinished, readNextStartElement_new_others,
      QXmlStreamReader.name, QXmlStreamReader.attributes, qAssert_of_imp debug _ _ hroot, ne_eq,
      hfail, not_false_eq_true, if_true]

/-- C8, at a concrete response: a failed directory listing leaves the catalog with
Artist 1 as it was. -/
theorem handlers_status_not_ok_noop_witness :
    onGetIndexesFinished true exampleArtist
        (List.replicate 1 Token.other ++
          Token.startElement "subsonic-response" [("status", "failed")] ::
            [Token.startElement "error" [("code", "70")], Token.endElement "error",
              Token.endElement "subsonic-response"]) = Run.done exampleArtist ∧
    onGetMusicDirectoryFinished true exampleArtist
        (List.replicate 1 Token.other ++
          Token.startElement "subsonic-response" [("status", "failed")] ::
            [Token.startElement "error" [("code", "70")], Token.endElement "error",
              Token.endElement "subsonic-response"]) = Run.done exampleArtist :=
  handlers_status_not_ok_noop true exampleArtist 1 "subsonic-response" [("status", "failed")]
    [Token.startElement "error" [("code", "70")], Token.endElement "error",
      Token.endElement "subsonic-response"] (by decide) (fun _ => rfl)

/-! ## Request builder and login -/

/-- C9, where the code departs from it: `BuildRequestUrl` joins `server_` and "rest/"
without a separator, so for the server "http://host" the location is
"http://hostrest/ping.view" and not "http://host/rest/ping.view"; the query items are
v, c, u, p in this order, and `GetMusicDirectory` appends id back them. -/
theorem BuildRequestUrl_no_separator :
    BuildRequestUrl { exampleRoot with server_ := "http://host" } "ping" =
      ⟨"http://hostrest/ping.view",
        [("v", "1.7.0"), ("c", "Clementine"), ("u", "user"), ("p", "secret")]⟩ ∧
    (BuildRequestUrl { exampleRoot with server_ := "http://host" } "ping").location ≠
      "http://host" ++ "/rest/" ++ "ping" ++ ".view" ∧
    (GetMusicDirectory { exampleRoot with server_ := "http://host" } "7").sent =
      [⟨⟨"http://hostrest/getMusicDirectory.view",
          [("v", "1.7.0"), ("c", "Clementine"), ("u", "user"), ("p", "secret"), ("id", "7")]⟩,
        Slot.onGetMusicDirectoryFinished, true⟩] := by
  decide

/-- C10: `Login(server, username, password)` stores exactly the three values, sets the
login state to Unknown and issues exactly one request, a ping built from the new
configuration and connected to `onPingFinished`, after replacing the cookie jar; the bare `Login()` does the same
with the configuration left as it was. Neither touches the item tree or the id
lookup. -/
theorem Login_resets_and_pings (s : State) (server username password : String) :
    ((LoginWith s server username password).config = (server, username, password) ∧
      (LoginWith s server username password).login_state_ = LoginState_Unknown ∧
      (LoginWith s server username password).sent = s.sent ++
        [⟨⟨server ++ "rest/" ++ "ping" ++ ".view",
            [("v", "1.7.0"), ("c", "Clementine"), ("u", username), ("p", password)]⟩,
          Slot.onPingFinished, true⟩] ∧
      (LoginWith s server username password).sent = s.sent ++
        [⟨BuildRequestUrl (LoginWith s server username password) "ping",
          Slot.onPingFinished, true⟩] ∧
      (LoginWith s server username password).cookieJars = s.cookieJars + 1 ∧
      (LoginWith s server username password).catalog = s.catalog) ∧
    ((Login s).config = s.config ∧
      (Login s).login_state_ = LoginState_Unknown ∧
      (Login s).sent = s.sent ++ [⟨BuildRequestUrl s "ping", Slot.onPingFinished, true⟩] ∧
      (Login s).catalog = s.catalog) := by
  exact ⟨⟨rfl, rfl, rfl, rfl, rfl, rfl⟩, rfl, rfl, rfl, rfl⟩

/-! ## Construction, notification and lazy loading -/

/-- C11, as stated, fails: the constructor leaves the login state at OtherError, not
at Unknown. -/
theorem constructed_state_is_not_unknown :
    SubsonicService.login_state_ ≠ LoginState_Unknown := by
  decide

/-- C11, amended: a newly constructed service, before any login attempt or ping
completion, has login state OtherError, also after `CreateRootItem`; Unknown is
entered by `Login`. -/
theorem constructed_state_is_other_error :
    SubsonicService.login_state_ = LoginState_OtherError ∧
    (CreateRootItem SubsonicService).1.login_state_ = LoginState_OtherError ∧
    (∀ s : State, (Login s).login_state_ = LoginState_Unknown) ∧
    (∀ (s : State) (server username password : String),
      (LoginWith s server username password).login_state_ = LoginState_Unknown) :=
  ⟨rfl, rfl, fun _ => rfl, fun _ _ _ _ => rfl⟩

/-- C12, as stated, fails: `Login` on a logged-in service assigns Unknown and emits no
LoginStateChanged signal. -/
theorem Login_resets_without_signal :
    (Login { exampleRoot with login_state_ := LoginState_Loggedin }).login_state_ =
      LoginState_Unknown ∧
    (Login { exampleRoot with login_state_ := LoginState_Loggedin }).emitted = [] := by
  decide

/-- C12, amended: every ping completion emits exactly one LoginStateChanged signal, and
it carries the login state the service has after the completion; the reset to Unknown
performed by either `Login` overload emits no signal. -/
theorem onPingFinished_notifies (s : State) (reply : Reply) (server username password : String) :
    (onPingFinished s reply).emitted = s.emitted ++ [(onPingFinished s reply).login_state_] ∧
    (Login s).emitted = s.emitted ∧
    (LoginWith s server username password).emitted = s.emitted := by
  refine ⟨?_, rfl, rfl⟩
  simp only [onPingFinished]
  split
  · rfl
  · split <;> rfl

/-- C13: for an item of the catalog, `LazyPopulate` issues exactly one request when
the item is an Artist or an Album, the `getMusicDirectory` request whose last query
item is the id of the item, and changes nothing else; for a Track it returns the state
as it was. -/
theorem LazyPopulate_item (s : State) (item : Nat) (it : QStandardItem)
    (hit : s.items[item]? = some it) :
    ((it.type = Type_Artist ∨ it.type = Type_Album) →
      LazyPopulate s item = Run.done
        { s with sent := s.sent ++
          [⟨(BuildRequestUrl s "getMusicDirectory").addQueryItem "id" it.id,
            Slot.onGetMusicDirectoryFinished, true⟩] }) ∧
    (it.type = Type_Track → LazyPopulate s item = Run.done s) := by
  constructor
  · rintro (h | h) <;> simp [LazyPopulate, hit, h, GetMusicDirectory, Send]
  · intro h
    simp [LazyPopulate, hit, h]

/-- C13, at concrete items: Artist 1 of the example catalog gets one request with
id=1, Track 3 gets none. -/
theorem LazyPopulate_item_witness :
    (LazyPopulate exampleAlbum 1 = Run.done
      { exampleAlbum with sent :=
        [⟨⟨"http://host/rest/getMusicDirectory.view",
            [("v", "1.7.0"), ("c", "Clementine"), ("u", "user"), ("p", "secret"), ("id", "1")]⟩,
          Slot.onGetMusicDirectoryFinished, true⟩] }) ∧
    LazyPopulate exampleAlbum 3 = Run.done exampleAlbum :=
  ⟨(LazyPopulate_item exampleAlbum 1
      { text := "A", type := Type_Artist, canLazyLoad := true, id := "1", children := [2, 3] }
      (by decide)).1 (Or.inl rfl),
    (LazyPopulate_item exampleAlbum 3
      { text := "Track1", type := Type_Track, canLazyLoad := false, id := "3", children := [] }
      (by decide)).2 rfl⟩

/-- C14, as stated, fails: after the index listing has been fetched and decoded, a
further `LazyPopulate` on the service root issues a second `getIndexes` request. -/
theorem LazyPopulate_service_fetches_again :
    Run.map (fun s => s.sent.map fun r => (r.url.location, r.slot))
      ((LazyPopulate exampleService 0).bind fun s1 =>
        (onGetIndexesFinished true s1
          (response 1 "subsonic-response" [("status", "ok")] 0 "indexes" []
            (Forest.elem "index" [("name", "A")]
              (Forest.elem "artist" [("id", "1"), ("name", "A")] Forest.nil Forest.nil)
              Forest.nil)
            Forest.nil [Token.other])).bind fun s2 => LazyPopulate s2 0) =
      Run.done [("http://host/rest/getIndexes.view", Slot.onGetIndexesFinished),
        ("http://host/rest/getIndexes.view", Slot.onGetIndexesFinished)] := by
  decide

/-- C14, amended: `LazyPopulate` on the service root issues exactly one `getIndexes`
request on every call, in every state of the service, whether or not the index was
fetched before, and changes nothing else. -/
theorem LazyPopulate_service (s : State) (item : Nat) (it : QStandardItem)
    (hit : s.items[item]? = some it) (htype : it.type = Type_Service) :
    LazyPopulate s item = Run.done
      { s with sent := s.sent ++
        [⟨BuildRequestUrl s "getIndexes", Slot.onGetIndexesFinished, true⟩] } := by
  simp [LazyPopulate, hit, htype, GetIndexes, Send]

/-- C14, amended, at the example service: one `getIndexes` request is issued. -/
theorem LazyPopulate_service_witness :
    LazyPopulate exampleService 0 = Run.done
      { exampleService with sent :=
        [⟨⟨"http://host/rest/getIndexes.view",
            [("v", "1.7.0"), ("c", "Clementine"), ("u", "user"), ("p", "secret")]⟩,
          Slot.onGetIndexesFinished, true⟩] } :=
  LazyPopulate_service exampleService 0
    { QStandardItem.new "Subsonic" with canLazyLoad := true, type := Type_Service }
    (by decide) rfl

/-- C15, as stated, fails: two `LazyPopulate` calls on Artist 1 before any completion
issue two requests, and the two completions with the same listing give Artist 1 every
entry twice. -/
theorem double_expand_duplicates_rows :
    Run.map (fun s => (s.sent.length, s.childNodes 1))
      ((LazyPopulate exampleArtist 1).bind fun s1 =>
        (LazyPopulate s1 1).bind fun s2 =>
          completeAll s2
            [Completion.directory true
              (response 1 "subsonic-response" [("status", "ok")] 0 "directory" [("id", "1")]
                (Forest.elem "child" [("isDir", "true"), ("id", "2"), ("title", "Album1")]
                  Forest.nil
                  (Forest.elem "child"
                    [("isDir", "false"), ("isVideo", "false"), ("id", "3"), ("title", "Track1")]
                    Forest.nil Forest.nil))
                Forest.nil [Token.other]),
             Completion.directory true
              (response 1 "subsonic-response" [("status", "ok")] 0 "directory" [("id", "1")]
                (Forest.elem "child" [("isDir", "true"), ("id", "2"), ("title", "Album1")]
                  Forest.nil
                  (Forest.elem "child"
                    [("isDir", "false"), ("isVideo", "false"), ("id", "3"), ("title", "Track1")]
                    Forest.nil Forest.nil))
                Forest.nil [Token.other])]) =
      Run.done (2,
        [{ text := "Album1", type := Type_Album, canLazyLoad := true, id := "2", children := [] },
         { text := "Track1", type := Type_Track, canLazyLoad := false, id := "3", children := [] },
         { text := "Album1", type := Type_Album, canLazyLoad := true, id := "2", children := [] },
         { text := "Track1", type := Type_Track, canLazyLoad := false, id := "3",
           children := [] }]) := by
  decide

/-- C18, where the code departs from it: with a `directory` id that is not a key of
`item_lookup_`, or without an id, `QMap::value` yields a null parent and the first
entry that qualifies as Album or Track is attached through it: the run ends on the
null pointer instead of returning with the catalog unchanged. Only a listing without
a qualifying entry returns with the state as it was. -/
theorem directory_unknown_id_null_parent :
    onGetMusicDirectoryFinished false exampleArtist
      (response 1 "subsonic-response" [("status", "ok")] 0 "directory" [("id", "99")]
        (Forest.elem "child" [("isDir", "true"), ("id", "2"), ("title", "Album1")] Forest.nil
          Forest.nil)
        Forest.nil [Token.other]) = Run.nullPointer ∧
    onGetMusicDirectoryFinished true exampleArtist
      (response 1 "subsonic-response" [("status", "ok")] 0 "directory" []
        (Forest.elem "child"
          [("isDir", "false"), ("isVideo", "false"), ("id", "3"), ("title", "Track1")]
          Forest.nil Forest.nil)
        Forest.nil [Token.other]) = Run.nullPointer ∧
    onGetMusicDirectoryFinished true exampleArtist
      (response 1 "subsonic-response" [("status", "ok")] 0 "directory" [("id", "99")]
        (Forest.elem "child" [("isDir", "false"), ("isVideo", "true"), ("id", "8")] Forest.nil
          Forest.nil)
        Forest.nil [Token.other]) = Run.done exampleArtist := by
  decide

/-! ## The id lookup -/

theorem lookupValue_insert_self (m : List (String × Nat)) (k : String) (v : Nat) :
    lookupValue (lookupInsert m k v) k = some v := by
  simp [lookupValue, lookupInsert, List.lookup]

theorem lookup_filter_ne (m : List (String × Nat)) (k id : String) (h : k ≠ id) :
    List.lookup k (m.filter fun kv => decide (kv.1 ≠ id)) = List.lookup k m := by
  induction m with
  | nil => rfl
  | cons kv m ih =>
    obtain ⟨k2, v2⟩ := kv
    by_cases h2 : k2 = id
    · subst h2
      have hb : (k == k2) = false := by simpa using h
      have hf : (List.filter (fun kv => decide (kv.1 ≠ k2)) ((k2, v2) :: m)) =
          List.filter (fun kv => decide (kv.1 ≠ k2)) m := by
        simp [List.filter_cons]
      rw [hf, ih]
      simp only [List.lookup, hb]
    · have hf : (List.filter (fun kv => decide (kv.1 ≠ id)) ((k2, v2) :: m)) =
          (k2, v2) :: List.filter (fun kv => decide (kv.1 ≠ id)) m := by
        simp [List.filter_cons, h2]
      rw [hf]
      by_cases h3 : k = k2
      · subst h3; simp [List.lookup]
      · have hb : (k == k2) = false := by simpa using h3
        simp only [List.lookup, hb]
        exact ih

theorem lookupValue_insert_ne (m : List (String × Nat)) (k id : String) (v : Nat) (h : k ≠ id) :
    lookupValue (lookupInsert m id v) k = lookupValue m k := by
  have hb : (k == id) = false := by simpa using h
  simp only [lookupValue, lookupInsert, List.lookup, hb]
  exact lookup_filter_ne m k id h

theorem attach_items (s : State) (p : Nat) (node : QStandardItem) (hp : p < s.items.length) :
    (attach s p node).items =
      s.items.set p { s.items[p] with children := s.items[p].children ++ [s.items.length] } ++
        [node] := by
  have h2 : s.items[p]? = some s.items[p] := List.getElem?_eq_getElem hp
  simp [attach, h2]

theorem attach_lookup (s : State) (p : Nat) (node : QStandardItem) (hp : p < s.items.length) :
    (attach s p node).item_lookup_ = lookupInsert s.item_lookup_ node.id s.items.length := by
  have h2 : s.items[p]? = some s.items[p] := List.getElem?_eq_getElem hp
  simp [attach, h2]

theorem attach_getElem_parent (s : State) (p : Nat) (node : QStandardItem)
    (hp : p < s.items.length) :
    (attach s p node).items[p]? =
      some { s.items[p] with children := s.items[p].children ++ [s.items.length] } := by
  rw [attach_items s p node hp, List.getElem?_append_left (by simpa using hp)]
  exact List.getElem?_set_self hp

theorem attach_getElem_new (s : State) (p : Nat) (node : QStandardItem)
    (hp : p < s.items.length) :
    (attach s p node).items[s.items.length]? = some node := by
  rw [attach_items s p node hp, List.getElem?_append_right (by simp)]
  simp

theorem attach_getElem_other (s : State) (p q : Nat) (node : QStandardItem)
    (hp : p < s.items.length) (hq : q < s.items.length) (hne : q ≠ p) :
    (attach s p node).items[q]? = s.items[q]? := by
  rw [attach_items s p node hp, List.getElem?_append_left (by simpa using hq),
    List.getElem?_set_ne (by omega)]

theorem attach_Attached (s : State) (p : Nat) (node : QStandardItem) (hp : p < s.items.length) :
    Attached s (attach s p node) p node := by
  have hnew := attach_getElem_new s p node hp
  have hlook : lookupValue (attach s p node).item_lookup_ node.id = some s.items.length := by
    rw [attach_lookup s p node hp]
    exact lookupValue_insert_self _ _ _
  refine ⟨⟨s.items[p], List.getElem?_eq_getElem hp, attach_getElem_parent s p node hp⟩, hnew,
    hlook, ?_, ?_⟩
  · simp only [State.resolve, hlook, hnew]
  · intro k hk
    rw [attach_lookup s p node hp]
    exact lookupValue_insert_ne _ _ _ _ hk

theorem indexNodes_append (f g : Forest) :
    indexNodes (f.append g) = indexNodes f ++ indexNodes g := by
  simp [indexNodes, elems_append]

/-! ## Catalog store -/

/-- C16: every node the decoder creates, in `ReadArtist`, `ReadAlbum` and `ReadTrack`
alike, becomes the last row of the parent it is given and is registered in
`item_lookup_` under its id: right after the call the id resolves to exactly that
node, and every other key maps as before. -/
theorem readers_attach_and_register (debug : Bool) (s : State) (n : String) (a : Attrs)
    (ts : List Token) (p : Nat) (hp : p < s.items.length) :
    ((debug = true → n = "artist") →
      ∃ s2 r2, ReadArtist debug s ⟨Current.tok (Token.startElement n a), ts⟩ (some p) =
          Run.done (s2, r2) ∧
        Attached s s2 p (artistNode a) ∧ s2.resolve (a.value "id") = some (artistNode a)) ∧
    ((debug = true → n = "child") →
      ∃ s2 r2, ReadAlbum debug s ⟨Current.tok (Token.startElement n a), ts⟩ (some p) =
          Run.done (s2, r2) ∧
        Attached s s2 p (albumNode a) ∧ s2.resolve (a.value "id") = some (albumNode a)) ∧
    ((debug = true → n = "child") →
      ∃ s2 r2, ReadTrack debug s ⟨Current.tok (Token.startElement n a), ts⟩ (some p) =
          Run.done (s2, r2) ∧
        Attached s s2 p (trackNode a) ∧ s2.resolve (a.value "id") = some (trackNode a)) := by
  refine ⟨fun hn => ?_, fun hn => ?_, fun hn => ?_⟩
  · exact ⟨_, _, ReadArtist_eq debug s n a ts p hp hn, attach_Attached s p _ hp,
      (attach_Attached s p (artistNode a) hp).2.2.2.1⟩
  · exact ⟨_, _, ReadAlbum_eq debug s n a ts p hp hn, attach_Attached s p _ hp,
      (attach_Attached s p (albumNode a) hp).2.2.2.1⟩
  · exact ⟨_, _, ReadTrack_eq debug s n a ts p hp hn, attach_Attached s p _ hp,
      (attach_Attached s p (trackNode a) hp).2.2.2.1⟩

/-- C16, at a concrete element: reading the track 3 under Artist 1 registers it, and
id 3 resolves to the new Track. -/
theorem readers_attach_and_register_witness :
    1 < exampleArtist.items.length ∧
    ∃ s2 r2, ReadTrack true exampleArtist
        ⟨Current.tok (Token.startElement "child"
          [("isVideo", "false"), ("id", "3"), ("title", "Track1")]),
          [Token.endElement "child"]⟩ (some 1) = Run.done (s2, r2) ∧
      s2.resolve "3" =
        some { text := "Track1", type := Type_Track, canLazyLoad := false, id := "3",
               children := [] } := by
  refine ⟨by decide, ?_⟩
  obtain ⟨s2, r2, h1, _, h3⟩ := (readers_attach_and_register true exampleArtist "child"
    [("isVideo", "false"), ("id", "3"), ("title", "Track1")] [Token.endElement "child"] 1
    (by decide)).2.2 (fun _ => rfl)
  exact ⟨s2, r2, h1, h3⟩

/-- C20: an entry is kept as a Track only when its isVideo attribute reads "false". A
bare `child` entry of an index response without an isVideo attribute gives no node
under the root, and a child entry of a directory response without an isVideo attribute
whose isDir is not "true" gives no node under the parent: in both cases the handler
returns the same state as for the response without the entry. -/
theorem entry_without_isVideo_skipped (debug : Bool) (s : State) (pre : Nat)
    (root : String) (rattrs : Attrs) (gap : Nat) (pattrs : Attrs)
    (front : Forest) (a : Attrs) (body : Forest) (back rest : Forest)
    (post : List Token)
    (hvalid : s.valid = true)
    (hok : rattrs.value "status" = "ok")
    (hroot : debug = true → root = "subsonic-response")
    (hnovideo : a.lookup "isVideo" = none) :
    ((∀ e ∈ (front.append back).elems, e.1 = "index" → ∀ g ∈ e.2.2.elems, g.1 = "artist") →
      ∃ s2, onGetIndexesFinished debug s
          (response pre root rattrs gap "indexes" pattrs
            (front.append (Forest.elem "child" a body back)) rest post) = Run.done s2 ∧
        onGetIndexesFinished debug s
          (response pre root rattrs gap "indexes" pattrs (front.append back) rest post) =
          Run.done s2 ∧
        s2.childNodes s2.root_ = s.childNodes s.root_ ++ indexNodes (front.append back)) ∧
    (∀ p, lookupValue s.item_lookup_ (pattrs.value "id") = some p →
      a.value "isDir" ≠ "true" →
      (debug = true → ∀ e ∈ (front.append back).elems, e.1 = "child") →
      ∃ s2, onGetMusicDirectoryFinished debug s
          (response pre root rattrs gap "directory" pattrs
            (front.append (Forest.elem "child" a body back)) rest post) = Run.done s2 ∧
        onGetMusicDirectoryFinished debug s
          (response pre root rattrs gap "directory" pattrs (front.append back) rest post) =
          Run.done s2 ∧
        s2.childNodes p = s.childNodes p ++ directoryNodes (front.append back)) ∧
    (∀ e : String × Attrs × Forest, directoryEntryNode e = some (trackNode e.2.1) →
      e.2.1.value "isDir" ≠ "true" → e.2.1.value "isVideo" = "false") := by
  have hval : a.value "isVideo" = "" := value_of_lookup_none a "isVideo" hnovideo
  have hne : ¬ (a.value "isVideo" = "false") := by rw [hval]; decide
  refine ⟨?_, ?_, ?_⟩
  · intro hart
    have hp := valid_root s hvalid
    have hentry : indexEntryNodes ("child", a, body) = [] := by
      simp [indexEntryNodes, hne]
    have hnodes : indexNodes (front.append (Forest.elem "child" a body back)) =
        indexNodes (front.append back) := by
      rw [indexNodes_append, indexNodes_append, indexNodes_elem, hentry]
      rfl
    have hart2 : ∀ e ∈ (front.append (Forest.elem "child" a body back)).elems,
        e.1 = "index" → ∀ g ∈ e.2.2.elems, g.1 = "artist" := by
      intro e he hidx
      rw [elems_append] at he
      rcases List.mem_append.mp he with he | he
      · exact hart e (by rw [elems_append]; exact List.mem_append_left _ he) hidx
      · rcases List.mem_cons.mp he with he | he
        · subst he
          have hni : ¬ (("child" : String) = "index") := by decide
          exact absurd hidx hni
        · exact hart e (by rw [elems_append]; exact List.mem_append_right _ he) hidx
    refine ⟨attachAll s s.root_ (indexNodes (front.append back)), ?_, ?_, ?_⟩
    · rw [← hnodes]
      exact onGetIndexesFinished_eq debug s pre root rattrs gap pattrs _ rest post hok hroot hp
        hart2
    · exact onGetIndexesFinished_eq debug s pre root rattrs gap pattrs _ rest post hok hroot hp
        hart
    · rw [attachAll_root]
      exact childNodes_attachAll _ s s.root_ hp (valid_rows s hvalid s.root_)
  · intro p hres hdir hnames
    have hp := valid_lookup s hvalid _ p hres
    have hnone : directoryEntryNode ("child", a, body) = none := by
      simp [directoryEntryNode, hdir, hne]
    have hnodes : directoryNodes (front.append (Forest.elem "child" a body back)) =
        directoryNodes (front.append back) := by
      rw [directoryNodes_append, directoryNodes_append, directoryNodes_elem, hnone]
      rfl
    have hnames2 : debug = true →
        ∀ e ∈ (front.append (Forest.elem "child" a body back)).elems,
          directoryEntryNode e ≠ none → e.1 = "child" := by
      intro hd e he hnn
      rw [elems_append] at he
      rcases List.mem_append.mp he with he | he
      · exact hnames hd e (by rw [elems_append]; exact List.mem_append_left _ he)
      · rcases List.mem_cons.mp he with he | he
        · subst he; rfl
        · exact hnames hd e (by rw [elems_append]; exact List.mem_append_right _ he)
    refine ⟨attachAll s p (directoryNodes (front.append back)), ?_, ?_, ?_⟩
    · rw [← hnodes]
      exact onGetMusicDirectoryFinished_eq debug s pre root rattrs gap pattrs _ rest post p
        hok hroot hres hp hnames2
    · exact onGetMusicDirectoryFinished_eq debug s pre root rattrs gap pattrs _ rest post p
        hok hroot hres hp (fun hd e he _ => hnames hd e he)
    · exact childNodes_attachAll _ s p hp (valid_rows s hvalid p)
  · intro e he hdir
    by_contra hv
    simp [directoryEntryNode, hdir, hv] at he

/-- C20, at a concrete listing: a child of directory 1 without isVideo and isDir, placed
between the album and the track, leaves Artist 1 with the album and the track only. -/
theorem entry_without_isVideo_skipped_witness :
    ∃ s2, onGetMusicDirectoryFinished true exampleArtist
        (response 1 "subsonic-response" [("status", "ok")] 0 "directory" [("id", "1")]
          ((Forest.elem "child" [("isDir", "true"), ("id", "2"), ("title", "Album1")] Forest.nil
              Forest.nil).append
            (Forest.elem "child" [("id", "8"), ("title", "Untagged")] Forest.nil
              (Forest.elem "child"
                [("isDir", "false"), ("isVideo", "false"), ("id", "3"), ("title", "Track1")]
                Forest.nil Forest.nil)))
          Forest.nil [Token.other]) = Run.done s2 ∧
      s2.childNodes 1 =
        [{ text := "Album1", type := Type_Album, canLazyLoad := true, id := "2", children := [] },
         { text := "Track1", type := Type_Track, canLazyLoad := false, id := "3",
           children := [] }] := by
  obtain ⟨s2, h1, _, h3⟩ := (entry_without_isVideo_skipped true exampleArtist 1
    "subsonic-response" [("status", "ok")] 0 [("id", "1")]
    (Forest.elem "child" [("isDir", "true"), ("id", "2"), ("title", "Album1")] Forest.nil
      Forest.nil)
    [("id", "8"), ("title", "Untagged")] Forest.nil
    (Forest.elem "child"
      [("isDir", "false"), ("isVideo", "false"), ("id", "3"), ("title", "Track1")]
      Forest.nil Forest.nil)
    Forest.nil [Token.other] (by decide) (by decide) (fun _ => rfl) (by decide)).2.1 1
    (by decide) (by decide) (by decide)
  exact ⟨s2, h1, by rw [h3]; decide⟩

/-! ## Runs on arbitrary token streams -/

theorem readNextStartElementFrom_length (ts : List Token) :
    (QXmlStreamReader.readNextStartElementFrom ts).2.device.length ≤ ts.length ∧
    ((QXmlStreamReader.readNextStartElementFrom ts).1 = true →
      (QXmlStreamReader.readNextStartElementFrom ts).2.device.length < ts.length) := by
  induction ts with
  | nil => simp [QXmlStreamReader.readNextStartElementFrom]
  | cons t ts ih =>
    cases t with
    | startElement n a => simp [QXmlStreamReader.readNextStartElementFrom]
    | endElement n => simp [QXmlStreamReader.readNextStartElementFrom]
    | other =>
      simp only [QXmlStreamReader.readNextStartElementFrom, List.length_cons]
      exact ⟨by omega, fun h => by have := ih.2 h; omega⟩

theorem readNextStartElement_length (r : QXmlStreamReader) (b : Bool) (r1 : QXmlStreamReader)
    (h : r.readNextStartElement = (b, r1)) :
    r1.device.length ≤ r.device.length ∧ (b = true → r1.device.length < r.device.length) := by
  have := readNextStartElementFrom_length r.device
  unfold QXmlStreamReader.readNextStartElement at h
  rw [h] at this
  exact this

theorem skipLoop_length (ts : List Token) :
    ∀ (d : Nat) (cur : Current), (QXmlStreamReader.skipLoop d cur ts).device.length ≤ ts.length := by
  induction ts with
  | nil =>
    intro d cur
    simp only [QXmlStreamReader.skipLoop]
    split <;> simp
  | cons t ts ih =>
    intro d cur
    simp only [QXmlStreamReader.skipLoop]
    split
    · simp
    · cases t with
      | startElement n a => have := ih (d + 1) (Current.tok (Token.startElement n a)); simp; omega
      | endElement n => have := ih (d - 1) (Current.tok (Token.endElement n)); simp; omega
      | other => have := ih d (Current.tok Token.other); simp; omega

theorem skipCurrentElement_length (r : QXmlStreamReader) :
    r.skipCurrentElement.device.length ≤ r.device.length :=
  skipLoop_length r.device 1 r.current

theorem qAssert_cases {α : Type} (debug : Bool) (c : Bool) (k : Run α) :
    qAssert debug c k = Run.assertFailed ∨ qAssert debug c k = k := by
  unfold qAssert
  split
  · exact Or.inl rfl
  · exact Or.inr rfl

theorem ReadArtist_cases (debug : Bool) (s : State) (r : QXmlStreamReader) (p : Nat)
    (hp : p < s.items.length) :
    ReadArtist debug s r (some p) = Run.assertFailed ∨
    ReadArtist debug s r (some p) =
      Run.done (attach s p (artistNode r.attributes), r.skipCurrentElement) := by
  unfold ReadArtist
  rcases qAssert_cases debug _ _ with h | h
  · exact Or.inl h
  · right; rw [h]; exact attachItem_eq s r p (artistNode r.attributes) hp

theorem ReadAlbum_cases (debug : Bool) (s : State) (r : QXmlStreamReader) (p : Nat)
    (hp : p < s.items.length) :
    ReadAlbum debug s r (some p) = Run.assertFailed ∨
    ReadAlbum debug s r (some p) =
      Run.done (attach s p (albumNode r.attributes), r.skipCurrentElement) := by
  unfold ReadAlbum
  rcases qAssert_cases debug _ _ with h | h
  · exact Or.inl h
  · right; rw [h]; exact attachItem_eq s r p (albumNode r.attributes) hp

theorem ReadTrack_cases (debug : Bool) (s : State) (r : QXmlStreamReader) (p : Nat)
    (hp : p < s.items.length) :
    ReadTrack debug s r (some p) = Run.assertFailed ∨
    ReadTrack debug s r (some p) =
      Run.done (attach s p (trackNode r.attributes), r.skipCurrentElement) := by
  unfold ReadTrack
  rcases qAssert_cases debug _ _ with h | h
  · exact Or.inl h
  · right; rw [h]; exact attachItem_eq s r p (trackNode r.attributes) hp

theorem attachItem_none (s : State) (r : QXmlStreamReader) (id : String) (item : QStandardItem) :
    attachItem s r none id item = Run.nullPointer := rfl

theorem ReadAlbum_none (debug : Bool) (s : State) (r : QXmlStreamReader) :
    ReadAlbum debug s r none = Run.assertFailed ∨ ReadAlbum debug s r none = Run.nullPointer := by
  unfold ReadAlbum
  rcases qAssert_cases debug _ _ with h | h
  · exact Or.inl h
  · right; rw [h]; rfl

theorem ReadTrack_none (debug : Bool) (s : State) (r : QXmlStreamReader) :
    ReadTrack debug s r none = Run.assertFailed ∨ ReadTrack debug s r none = Run.nullPointer := by
  unfold ReadTrack
  rcases qAssert_cases debug _ _ with h | h
  · exact Or.inl h
  · right; rw [h]; rfl

/-- A node fresh from the decoder has no rows. -/
theorem artistNode_children (a : Attrs) : (artistNode a).children = [] := rfl

theorem albumNode_children (a : Attrs) : (albumNode a).children = [] := rfl

theorem trackNode_children (a : Attrs) : (trackNode a).children = [] := rfl

theorem ReadIndexLoop_step (debug : Bool) (parent : Option Nat) (fuel : Nat) (s : State)
    (r : QXmlStreamReader) :
    ReadIndexLoop debug parent (fuel + 1) s r =
      match r.readNextStartElement with
      | (false, r1) => Run.done (s, r1)
      | (true, r1) =>
        (ReadArtist debug s r1 parent).bind fun sr => ReadIndexLoop debug parent fuel sr.1 sr.2 :=
  rfl

theorem ReadIndexLoop_run (debug : Bool) (p : Nat) :
    ∀ (fuel : Nat) (s : State) (r : QXmlStreamReader),
      p < s.items.length → r.device.length < fuel →
      ReadIndexLoop debug (some p) fuel s r = Run.assertFailed ∨
      ∃ nodes r2, ReadIndexLoop debug (some p) fuel s r = Run.done (attachAll s p nodes, r2) ∧
        (∀ n ∈ nodes, n.children = []) ∧ r2.device.length ≤ r.device.length := by
  intro fuel
  induction fuel with
  | zero => intro s r _ hf; omega
  | succ fuel ih =>
    intro s r hp hf
    rw [ReadIndexLoop_step]
    generalize hx : r.readNextStartElement = x
    obtain ⟨b, r1⟩ := x
    have hlen := readNextStartElement_length r b r1 hx
    cases b with
    | false =>
      exact Or.inr ⟨[], r1, rfl, by simp, hlen.1⟩
    | true =>
      have hlt := hlen.2 rfl
      simp only []
      rcases ReadArtist_cases debug s r1 p hp with h | h
      · rw [h]; exact Or.inl rfl
      · rw [h]
        simp only [Run.bind]
        have hskip := skipCurrentElement_length r1
        have hp2 : p < (attach s p (artistNode r1.attributes)).items.length := by
          rw [attach_length s p _ hp]; omega
        rcases ih (attach s p (artistNode r1.attributes)) r1.skipCurrentElement hp2
          (by omega) with h2 | ⟨nodes, r2, h2, hleaf, hr2⟩
        · exact Or.inl h2
        · refine Or.inr ⟨artistNode r1.attributes :: nodes, r2, ?_, ?_, by omega⟩
          · rw [h2, attachAll_cons]
          · intro n hn
            rcases List.mem_cons.mp hn with hn | hn
            · subst hn; rfl
            · exact hleaf n hn

theorem directoryLoop_step (debug : Bool) (parent : Option Nat) (fuel : Nat) (s : State)
    (r : QXmlStreamReader) :
    directoryLoop debug parent (fuel + 1) s r =
      match r.readNextStartElement with
      | (false, _) => Run.done s
      | (true, r1) =>
        if r1.attributes.value "isDir" = "true" then
          (ReadAlbum debug s r1 parent).bind fun sr => directoryLoop debug parent fuel sr.1 sr.2
        else if r1.attributes.value "isVideo" = "false" then
          (ReadTrack debug s r1 parent).bind fun sr => directoryLoop debug parent fuel sr.1 sr.2
        else
          directoryLoop debug parent fuel s r1.skipCurrentElement :=
  rfl

theorem directoryLoop_run (debug : Bool) (p : Nat) :
    ∀ (fuel : Nat) (s : State) (r : QXmlStreamReader),
      p < s.items.length → r.device.length < fuel →
      directoryLoop debug (some p) fuel s r = Run.assertFailed ∨
      ∃ nodes, directoryLoop debug (some p) fuel s r = Run.done (attachAll s p nodes) ∧
        (∀ n ∈ nodes, n.children = []) := by
  intro fuel
  induction fuel with
  | zero => intro s r _ hf; omega
  | succ fuel ih =>
    intro s r hp hf
    rw [directoryLoop_step]
    generalize hx : r.readNextStartElement = x
    obtain ⟨b, r1⟩ := x
    have hlen := readNextStartElement_length r b r1 hx
    cases b with
    | false => exact Or.inr ⟨[], rfl, by simp⟩
    | true =>
      have hlt := hlen.2 rfl
      have hskip := skipCurrentElement_length r1
      have hnext : ∀ node : QStandardItem, node.children = [] →
          directoryLoop debug (some p) fuel (attach s p node) r1.skipCurrentElement =
            Run.assertFailed ∨
          ∃ nodes, directoryLoop debug (some p) fuel (attach s p node) r1.skipCurrentElement =
              Run.done (attachAll s p nodes) ∧ (∀ n ∈ nodes, n.children = []) := by
        intro node hnode
        have hp2 : p < (attach s p node).items.length := by
          rw [attach_length s p _ hp]; omega
        rcases ih (attach s p node) r1.skipCurrentElement hp2 (by omega) with
          h2 | ⟨nodes, h2, hleaf⟩
        · exact Or.inl h2
        · refine Or.inr ⟨node :: nodes, ?_, ?_⟩
          · rw [h2, attachAll_cons]
          · intro n hn
            rcases List.mem_cons.mp hn with hn | hn
            · subst hn; exact hnode
            · exact hleaf n hn
      simp only []
      split
      · rcases ReadAlbum_cases debug s r1 p hp with h | h
        · rw [h]; exact Or.inl rfl
        · rw [h]; exact hnext _ rfl
      · split
        · rcases ReadTrack_cases debug s r1 p hp with h | h
          · rw [h]; exact Or.inl rfl
          · rw [h]; exact hnext _ rfl
        · exact ih s r1.skipCurrentElement hp (by omega)

theorem directoryLoop_null (debug : Bool) :
    ∀ (fuel : Nat) (s : State) (r : QXmlStreamReader), r.device.length < fuel →
      directoryLoop debug none fuel s r = Run.assertFailed ∨
      directoryLoop debug none fuel s r = Run.nullPointer ∨
      directoryLoop debug none fuel s r = Run.done s := by
  intro fuel
  induction fuel with
  | zero => intro s r hf; omega
  | succ fuel ih =>
    intro s r hf
    rw [directoryLoop_step]
    generalize hx : r.readNextStartElement = x
    obtain ⟨b, r1⟩ := x
    have hlen := readNextStartElement_length r b r1 hx
    cases b with
    | false => exact Or.inr (Or.inr rfl)
    | true =>
      have hlt := hlen.2 rfl
      have hskip := skipCurrentElement_length r1
      simp only []
      split
      · rcases ReadAlbum_none debug s r1 with h | h
        · rw [h]; exact Or.inl rfl
        · rw [h]; exact Or.inr (Or.inl rfl)
      · split
        · rcases ReadTrack_none debug s r1 with h | h
          · rw [h]; exact Or.inl rfl
          · rw [h]; exact Or.inr (Or.inl rfl)
        · exact ih s r1.skipCurrentElement (by omega)

theorem indexesLoop_step (debug : Bool) (fuel : Nat) (s : State) (r : QXmlStreamReader) :
    indexesLoop debug (fuel + 1) s r =
      match r.readNextStartElement with
      | (false, _) => Run.done s
      | (true, r1) =>
        if r1.name = "index" then
          (ReadIndex debug s r1 (some s.root_)).bind fun sr => indexesLoop debug fuel sr.1 sr.2
        else if r1.name = "child" ∧ r1.attributes.value "isVideo" = "false" then
          (ReadTrack debug s r1 (some s.root_)).bind fun sr => indexesLoop debug fuel sr.1 sr.2
        else
          indexesLoop debug fuel s r1.skipCurrentElement :=
  rfl

theorem ReadIndex_run (debug : Bool) (p : Nat) (s : State) (r : QXmlStreamReader)
    (hp : p < s.items.length) :
    ReadIndex debug s r (some p) = Run.assertFailed ∨
    ∃ nodes r2, ReadIndex debug s r (some p) = Run.done (attachAll s p nodes, r2) ∧
      (∀ n ∈ nodes, n.children = []) ∧ r2.device.length ≤ r.device.length := by
  unfold ReadIndex
  rcases qAssert_cases debug _ _ with h | h
  · exact Or.inl h
  · rw [h]
    exact ReadIndexLoop_run debug p _ s r hp (by omega)

theorem indexesLoop_run (debug : Bool) :
    ∀ (fuel : Nat) (s : State) (r : QXmlStreamReader),
      s.root_ < s.items.length → r.device.length < fuel →
      indexesLoop debug fuel s r = Run.assertFailed ∨
      ∃ nodes, indexesLoop debug fuel s r = Run.done (attachAll s s.root_ nodes) ∧
        (∀ n ∈ nodes, n.children = []) := by
  intro fuel
  induction fuel with
  | zero => intro s r _ hf; omega
  | succ fuel ih =>
    intro s r hp hf
    rw [indexesLoop_step]
    generalize hx : r.readNextStartElement = x
    obtain ⟨b, r1⟩ := x
    have hlen := readNextStartElement_length r b r1 hx
    cases b with
    | false => exact Or.inr ⟨[], rfl, by simp⟩
    | true =>
      have hlt := hlen.2 rfl
      have hskip := skipCurrentElement_length r1
      have hnext : ∀ (nodes1 : List QStandardItem) (r2 : QXmlStreamReader),
          (∀ n ∈ nodes1, n.children = []) → r2.device.length < fuel →
          indexesLoop debug fuel (attachAll s s.root_ nodes1) r2 = Run.assertFailed ∨
          ∃ nodes, indexesLoop debug fuel (attachAll s s.root_ nodes1) r2 =
              Run.done (attachAll s s.root_ nodes) ∧ (∀ n ∈ nodes, n.children = []) := by
        intro nodes1 r2 hleaf1 hr2
        have hroot := attachAll_root nodes1 s s.root_
        have hl := attachAll_length nodes1 s s.root_ hp
        have hp2 : (attachAll s s.root_ nodes1).root_ < (attachAll s s.root_ nodes1).items.length := by
          rw [hroot, hl]; exact Nat.lt_add_right _ hp
        rcases ih (attachAll s s.root_ nodes1) r2 hp2 hr2 with h2 | ⟨nodes, h2, hleaf⟩
        · exact Or.inl h2
        · refine Or.inr ⟨nodes1 ++ nodes, ?_, ?_⟩
          · rw [h2, hroot, attachAll_append]
          · intro n hn
            rcases List.mem_append.mp hn with hn | hn
            · exact hleaf1 n hn
            · exact hleaf n hn
      simp only []
      split
      · rcases ReadIndex_run debug s.root_ s r1 hp with h | ⟨nodes1, r2, h, hleaf1, hr2⟩
        · rw [h]; exact Or.inl rfl
        · rw [h]; exact hnext nodes1 r2 hleaf1 (by omega)
      · split
        · rcases ReadTrack_cases debug s r1 s.root_ hp with h | h
          · rw [h]; exact Or.inl rfl
          · rw [h]
            have := hnext [trackNode r1.attributes] r1.skipCurrentElement
              (by intro n hn; rw [List.mem_singleton.mp hn]; rfl) (by omega)
            simpa [attachAll, Run.bind] using this
        · have := hnext [] r1.skipCurrentElement (by simp) (by omega)
          simpa [attachAll] using this

theorem onGetIndexesFinished_run (debug : Bool) (s : State) (body : List Token)
    (hp : s.root_ < s.items.length) :
    onGetIndexesFinished debug s body = Run.assertFailed ∨
    ∃ nodes, onGetIndexesFinished debug s body = Run.done (attachAll s s.root_ nodes) ∧
      (∀ n ∈ nodes, n.children = []) := by
  unfold onGetIndexesFinished
  simp only []
  rcases qAssert_cases debug _ _ with h | h
  · exact Or.inl h
  · rw [h]
    split
    · exact Or.inr ⟨[], rfl, by simp⟩
    · rcases qAssert_cases debug _ _ with h2 | h2
      · exact Or.inl h2
      · rw [h2]
        exact indexesLoop_run debug _ s _ hp (by omega)

theorem onGetMusicDirectoryFinished_run (debug : Bool) (s : State) (body : List Token)
    (hlook : ∀ k p, lookupValue s.item_lookup_ k = some p → p < s.items.length) :
    onGetMusicDirectoryFinished debug s body = Run.assertFailed ∨
    onGetMusicDirectoryFinished debug s body = Run.nullPointer ∨
    onGetMusicDirectoryFinished debug s body = Run.done s ∨
    ∃ p nodes, lookupValue s.item_lookup_ (directoryId body) = some p ∧
      onGetMusicDirectoryFinished debug s body = Run.done (attachAll s p nodes) ∧
      (∀ n ∈ nodes, n.children = []) := by
  unfold onGetMusicDirectoryFinished
  simp only []
  rcases qAssert_cases debug _ _ with h | h
  · exact Or.inl h
  · rw [h]
    split
    · exact Or.inr (Or.inr (Or.inl rfl))
    · rcases qAssert_cases debug _ _ with h2 | h2
      · exact Or.inl h2
      · rw [h2]
        generalize htarget : lookupValue s.item_lookup_ _ = target
        cases target with
        | none =>
          rcases directoryLoop_null debug _ s _ (Nat.lt_succ_self _) with h3 | h3 | h3
          · exact Or.inl h3
          · exact Or.inr (Or.inl h3)
          · exact Or.inr (Or.inr (Or.inl h3))
        | some p =>
          have hp := hlook _ p htarget
          rcases directoryLoop_run debug p _ s _ hp (Nat.lt_succ_self _) with
            h3 | ⟨nodes, h3, hleaf⟩
          · exact Or.inl h3
          · exact Or.inr (Or.inr (Or.inr ⟨p, nodes, htarget, h3, hleaf⟩))

/-! ## Frame of attaching -/

theorem keepsItem_refl (s : State) (q : Nat) : keepsItem s s q := by
  intro it hit
  exact ⟨it, hit, rfl, rfl, rfl, rfl, List.prefix_refl _⟩

theorem keepsItem_trans (s s2 s3 : State) (q : Nat) (h12 : keepsItem s s2 q)
    (h23 : keepsItem s2 s3 q) : keepsItem s s3 q := by
  intro it hit
  obtain ⟨it2, h2, ht, hty, hc, hid, hpre⟩ := h12 it hit
  obtain ⟨it3, h3, ht3, hty3, hc3, hid3, hpre3⟩ := h23 it2 h2
  exact ⟨it3, h3, ht3.trans ht, hty3.trans hty, hc3.trans hc, hid3.trans hid,
    List.IsPrefix.trans hpre hpre3⟩

theorem preserves_refl (s : State) (target : Option Nat) : preserves s s target :=
  ⟨rfl, Nat.le_refl _, fun q => keepsItem_refl s q, fun _ _ _ => rfl⟩

theorem preserves_trans (s s2 s3 : State) (target : Option Nat) (h12 : preserves s s2 target)
    (h23 : preserves s2 s3 target) : preserves s s3 target := by
  obtain ⟨hr, hl, hk, ho⟩ := h12
  obtain ⟨hr3, hl3, hk3, ho3⟩ := h23
  refine ⟨hr3.trans hr, Nat.le_trans hl hl3, fun q => keepsItem_trans s s2 s3 q (hk q) (hk3 q), ?_⟩
  intro q hq hne
  rw [ho3 q (by omega) hne, ho q hq hne]

theorem preserves_attach (s : State) (p : Nat) (node : QStandardItem) (hp : p < s.items.length) :
    preserves s (attach s p node) (some p) := by
  refine ⟨attach_root s p node, by rw [attach_length s p node hp]; omega, ?_, ?_⟩
  · intro q it hit
    have hq : q < s.items.length := by
      rcases Nat.lt_or_ge q s.items.length with h | h
      · exact h
      · rw [List.getElem?_eq_none h] at hit; cases hit
    by_cases hqp : q = p
    · subst hqp
      have h2 : s.items[q]? = some s.items[q] := List.getElem?_eq_getElem hp
      rw [h2] at hit
      cases hit
      exact ⟨_, attach_getElem_parent s q node hp, rfl, rfl, rfl, rfl, List.prefix_append _ _⟩
    · refine ⟨it, ?_, rfl, rfl, rfl, rfl, List.prefix_refl _⟩
      rw [attach_getElem_other s p q node hp hq hqp]
      exact hit
  · intro q hq hne
    have hqp : q ≠ p := fun h => hne (by rw [h])
    exact attach_getElem_other s p q node hp hq hqp

theorem preserves_attachAll (nodes : List QStandardItem) :
    ∀ (s : State) (p : Nat), p < s.items.length → preserves s (attachAll s p nodes) (some p) := by
  induction nodes with
  | nil => intro s p _; exact preserves_refl s _
  | cons x xs ih =>
    intro s p hp
    have hp2 : p < (attach s p x).items.length := by
      rw [attach_length s p x hp]; omega
    rw [attachAll_cons]
    exact preserves_trans s (attach s p x) _ _ (preserves_attach s p x hp) (ih _ p hp2)

theorem valid_lookup_all (s : State) (h : s.valid = true) :
    ∀ k p, lookupValue s.item_lookup_ k = some p → p < s.items.length :=
  fun k p hl => valid_lookup s h k p hl

/-! ## Decoding never removes or changes a node -/

/-- C17: for a valid catalog and every reply body, neither handler runs out of its
loop budget, and when it returns every item that was there before is still there with
the same text, type, lazy-load flag and id and with its former rows as a prefix of its
rows; index decoding changes no item but the root, directory decoding no item but the
one the `directory` id resolves to. (A run that stops on a `Q_ASSERT` or on a null
parent leaves no state to compare.) -/
theorem decoding_preserves_nodes (debug : Bool) (s : State) (body : List Token)
    (hvalid : s.valid = true) :
    onGetIndexesFinished debug s body ≠ Run.outOfFuel ∧
    onGetMusicDirectoryFinished debug s body ≠ Run.outOfFuel ∧
    (∀ s2, onGetIndexesFinished debug s body = Run.done s2 →
      preserves s s2 (some s.root_)) ∧
    (∀ s2, onGetMusicDirectoryFinished debug s body = Run.done s2 →
      preserves s s2 (lookupValue s.item_lookup_ (directoryId body))) := by
  have hp := valid_root s hvalid
  have hi := onGetIndexesFinished_run debug s body hp
  have hd := onGetMusicDirectoryFinished_run debug s body (valid_lookup_all s hvalid)
  refine ⟨?_, ?_, ?_, ?_⟩
  · rcases hi with h | ⟨nodes, h, _⟩ <;> rw [h] <;> simp
  · rcases hd with h | h | h | ⟨p, nodes, _, h, _⟩ <;> rw [h] <;> simp
  · intro s2 hs2
    rcases hi with h | ⟨nodes, h, _⟩
    · rw [h] at hs2; cases hs2
    · rw [h] at hs2
      cases hs2
      exact preserves_attachAll nodes s s.root_ hp
  · intro s2 hs2
    rcases hd with h | h | h | ⟨p, nodes, hres, h, _⟩
    · rw [h] at hs2; cases hs2
    · rw [h] at hs2; cases hs2
    · rw [h] at hs2
      cases hs2
      exact preserves_refl s _
    · rw [h] at hs2
      cases hs2
      rw [hres]
      exact preserves_attachAll nodes s p (valid_lookup s hvalid _ p hres)

/-- C17, at the listing of directory 1: the example catalog with Artist 1 is preserved
by the run that gives Artist 1 its album and its track. -/
theorem decoding_preserves_nodes_witness :
    exampleArtist.valid = true ∧ preserves exampleArtist exampleAlbum (some 1) := by
  have h := (decoding_preserves_nodes true exampleArtist
    (response 1 "subsonic-response" [("status", "ok")] 0 "directory" [("id", "1")]
      (Forest.elem "child" [("isDir", "true"), ("id", "2"), ("title", "Album1")] Forest.nil
        (Forest.elem "child"
          [("isDir", "false"), ("isVideo", "false"), ("id", "3"), ("title", "Track1")]
          Forest.nil Forest.nil))
      Forest.nil [Token.other]) (by decide)).2.2.2 exampleAlbum (by decide)
  exact ⟨by decide, h⟩

/-! ## Consistency of the id lookup with the tree -/

theorem lt_of_getElem?_some {α : Type} (l : List α) (q : Nat) (x : α) (h : l[q]? = some x) :
    q < l.length := by
  rcases Nat.lt_or_ge q l.length with hq | hq
  · exact hq
  · rw [List.getElem?_eq_none hq] at h; cases h

theorem Reach_of_preserves (s s2 : State) (target : Option Nat) (h : preserves s s2 target)
    (q : Nat) (hq : Reach s q) : Reach s2 q := by
  induction hq with
  | root => rw [← h.1]; exact Reach.root
  | row p c it _ hit hc ih =>
    obtain ⟨it2, h2, _, _, _, _, hpre⟩ := h.2.2.1 p it hit
    exact Reach.row p c it2 ih h2 (hpre.subset hc)

theorem Reach_attach_new (s : State) (p : Nat) (node : QStandardItem) (hp : p < s.items.length)
    (hreach : Reach s p) : Reach (attach s p node) s.items.length :=
  Reach.row p s.items.length _
    (Reach_of_preserves s _ _ (preserves_attach s p node hp) p hreach)
    (attach_getElem_parent s p node hp) (by simp)

theorem Reach_attach_inv (s : State) (p : Nat) (node : QStandardItem) (hp : p < s.items.length)
    (hleaf : node.children = []) (q : Nat) (hq : Reach (attach s p node) q) :
    q = s.items.length ∨ Reach s q := by
  induction hq with
  | root => right; rw [attach_root]; exact Reach.root
  | row p0 c it0 _ hit hc ih =>
    have hlt := lt_of_getElem?_some _ _ _ hit
    rw [attach_length s p node hp] at hlt
    by_cases h0 : p0 = s.items.length
    · subst h0
      rw [attach_getElem_new s p node hp] at hit
      cases hit
      rw [hleaf] at hc
      cases hc
    · have hp0 : p0 < s.items.length := by omega
      have hr0 : Reach s p0 := by
        rcases ih with h | h
        · exact absurd h h0
        · exact h
      by_cases hpp : p0 = p
      · subst hpp
        rw [attach_getElem_parent s p0 node hp] at hit
        cases hit
        rcases List.mem_append.mp hc with hc | hc
        · exact Or.inr (Reach.row p0 c _ hr0 (List.getElem?_eq_getElem hp) hc)
        · exact Or.inl (List.mem_singleton.mp hc)
      · rw [attach_getElem_other s p p0 node hp hp0 hpp] at hit
        exact Or.inr (Reach.row p0 c it0 hr0 hit hc)

theorem lookupValue_insert_ne_none (m : List (String × Nat)) (k id : String) (v : Nat)
    (h : lookupValue m k ≠ none) : lookupValue (lookupInsert m id v) k ≠ none := by
  by_cases hk : k = id
  · subst hk
    rw [lookupValue_insert_self]
    simp
  · rw [lookupValue_insert_ne m k id v hk]
    exact h

theorem Consistent_attach (s : State) (p : Nat) (node : QStandardItem)
    (hcons : Consistent s) (hp : p < s.items.length) (hreach : Reach s p)
    (hleaf : node.children = []) : Consistent (attach s p node) := by
  obtain ⟨hroot, hentries, hkeys⟩ := hcons
  have hpres := preserves_attach s p node hp
  have hlen := attach_length s p node hp
  refine ⟨by rw [attach_root, hlen]; omega, ?_, ?_⟩
  · intro k q hk
    rw [attach_lookup s p node hp] at hk
    by_cases hkid : k = node.id
    · subst hkid
      rw [lookupValue_insert_self] at hk
      cases hk
      refine ⟨?_, Reach_attach_new s p node hp hreach, node, attach_getElem_new s p node hp, rfl⟩
      rw [attach_root]
      omega
    · rw [lookupValue_insert_ne _ _ _ _ hkid] at hk
      obtain ⟨hne, hr, it, hit, hid⟩ := hentries k q hk
      obtain ⟨it2, h2, _, _, _, hid2, _⟩ := hpres.2.2.1 q it hit
      exact ⟨by rw [attach_root]; exact hne, Reach_of_preserves s _ _ hpres q hr, it2, h2,
        hid2.trans hid⟩
  · intro q it hq hne hit
    rw [attach_lookup s p node hp]
    rw [attach_root] at hne
    rcases Reach_attach_inv s p node hp hleaf q hq with h | h
    · subst h
      rw [attach_getElem_new s p node hp] at hit
      cases hit
      rw [lookupValue_insert_self]
      simp
    · have hlt := lt_of_getElem?_some _ _ _ hit
      rw [hlen] at hlt
      by_cases hql : q = s.items.length
      · subst hql
        rw [attach_getElem_new s p node hp] at hit
        cases hit
        rw [lookupValue_insert_self]
        simp
      · have hq2 : q < s.items.length := by omega
        have h0 : s.items[q]? = some s.items[q] := List.getElem?_eq_getElem hq2
        obtain ⟨it2, h2, _, _, _, hid2, _⟩ := hpres.2.2.1 q _ h0
        rw [hit] at h2
        cases h2
        rw [hid2]
        exact lookupValue_insert_ne_none _ _ _ _ (hkeys q _ h hne h0)

theorem Consistent_attachAll (nodes : List QStandardItem) :
    ∀ (s : State) (p : Nat), Consistent s → p < s.items.length → Reach s p →
      (∀ n ∈ nodes, n.children = []) → Consistent (attachAll s p nodes) := by
  induction nodes with
  | nil => intro s p h _ _ _; exact h
  | cons x xs ih =>
    intro s p hcons hp hreach hleaf
    have hp2 : p < (attach s p x).items.length := by
      rw [attach_length s p x hp]; omega
    rw [attachAll_cons]
    exact ih (attach s p x) p
      (Consistent_attach s p x hcons hp hreach (hleaf x (List.mem_cons_self _ _))) hp2
      (Reach_of_preserves s _ _ (preserves_attach s p x hp) p hreach)
      (fun n hn => hleaf n (List.mem_cons_of_mem _ hn))

theorem Consistent_lookup_lt (s : State) (hcons : Consistent s) :
    ∀ k p, lookupValue s.item_lookup_ k = some p → p < s.items.length := by
  intro k p hk
  obtain ⟨_, _, it, hit, _⟩ := hcons.2.1 k p hk
  exact lt_of_getElem?_some _ _ _ hit

theorem Consistent_complete (s : State) (c : Completion) (s2 : State) (hcons : Consistent s)
    (hrun : complete s c = Run.done s2) : Consistent s2 := by
  cases c with
  | indexes debug body =>
    simp only [complete] at hrun
    rcases onGetIndexesFinished_run debug s body hcons.1 with h | ⟨nodes, h, hleaf⟩
    · rw [h] at hrun; cases hrun
    · rw [h] at hrun
      cases hrun
      exact Consistent_attachAll nodes s s.root_ hcons hcons.1 Reach.root hleaf
  | directory debug body =>
    simp only [complete] at hrun
    rcases onGetMusicDirectoryFinished_run debug s body (Consistent_lookup_lt s hcons) with
      h | h | h | ⟨p, nodes, hres, h, hleaf⟩
    · rw [h] at hrun; cases hrun
    · rw [h] at hrun; cases hrun
    · rw [h] at hrun; cases hrun; exact hcons
    · rw [h] at hrun
      cases hrun
      exact Consistent_attachAll nodes s p hcons (Consistent_lookup_lt s hcons _ p hres)
        (hcons.2.1 _ p hres).2.1 hleaf

theorem Consistent_completeAll (cs : List Completion) :
    ∀ (s s2 : State), Consistent s → completeAll s cs = Run.done s2 → Consistent s2 := by
  induction cs with
  | nil =>
    intro s s2 hcons hrun
    simp only [completeAll] at hrun
    cases hrun
    exact hcons
  | cons c cs ih =>
    intro s s2 hcons hrun
    simp only [completeAll] at hrun
    generalize hc : complete s c = x at hrun
    cases x with
    | done s1 => exact ih s1 s2 (Consistent_complete s c s1 hcons hc) hrun
    | assertFailed => cases hrun
    | nullPointer => cases hrun
    | outOfFuel => cases hrun

theorem Reach_root_only (s : State) (rootItem : QStandardItem) (hitems : s.items = [rootItem])
    (hroot : s.root_ = 0) (hrows : rootItem.children = []) (q : Nat) (hq : Reach s q) :
    q = s.root_ := by
  induction hq with
  | root => rfl
  | row p c it _ hit hc ih =>
    rw [ih, hroot, hitems] at hit
    simp at hit
    subst hit
    rw [hrows] at hc
    cases hc

/-- C19: starting from a catalog that holds only the root and an empty `item_lookup_`,
after every finite sequence of index and directory completions that ran to their end,
every entry of `item_lookup_` points to a node that is reachable from the root, is not
the root, and carries the key as its id, and the id of every node below the root is a
key of `item_lookup_`. (A directory completion whose id does not resolve either
attaches nothing or stops the run on the null parent.) -/
theorem lookup_consistent_after_completions (s0 : State) (rootItem : QStandardItem)
    (cs : List Completion) (s : State)
    (hitems : s0.items = [rootItem]) (hroot : s0.root_ = 0) (hrows : rootItem.children = [])
    (hlookup : s0.item_lookup_ = [])
    (hrun : completeAll s0 cs = Run.done s) :
    Consistent s := by
  have h0 : Consistent s0 := by
    refine ⟨by rw [hroot, hitems]; simp, ?_, ?_⟩
    · intro k p hk
      rw [hlookup] at hk
      simp [lookupValue] at hk
    · intro q it hq hne _
      exact absurd (Reach_root_only s0 rootItem hitems hroot hrows q hq) hne
  exact Consistent_completeAll cs s0 s h0 hrun

/-- C19, at the two scenarios of the spec run one after the other from the root-only
catalog: the lookup of the resulting catalog is consistent with its tree. -/
theorem lookup_consistent_after_completions_witness : Consistent exampleAlbum :=
  lookup_consistent_after_completions exampleRoot
    { QStandardItem.new "Subsonic" with canLazyLoad := true }
    [Completion.indexes true
      (response 1 "subsonic-response" [("status", "ok")] 0 "indexes" []
        (Forest.elem "index" [("name", "A")]
          (Forest.elem "artist" [("id", "1"), ("name", "A")] Forest.nil Forest.nil) Forest.nil)
        Forest.nil [Token.other]),
     Completion.directory true
      (response 1 "subsonic-response" [("status", "ok")] 0 "directory" [("id", "1")]
        (Forest.elem "child" [("isDir", "true"), ("id", "2"), ("title", "Album1")] Forest.nil
          (Forest.elem "child"
            [("isDir", "false"), ("isVideo", "false"), ("id", "3"), ("title", "Track1")]
            Forest.nil Forest.nil))
        Forest.nil [Token.other])]
    exampleAlbum rfl rfl rfl rfl (by decide)

/-! ## Repeated expansion -/

theorem attach_sent (s : State) (p : Nat) (node : QStandardItem) :
    (attach s p node).sent = s.sent := by
  unfold attach; split <;> rfl

theorem attachAll_sent (nodes : List QStandardItem) :
    ∀ (s : State) (p : Nat), (attachAll s p nodes).sent = s.sent := by
  induction nodes with
  | nil => intro s p; rfl
  | cons x xs ih => intro s p; rw [attachAll_cons, ih, attach_sent]

theorem attachAll_lookup_ne (nodes : List QStandardItem) :
    ∀ (s : State) (p : Nat) (k : String), p < s.items.length → (∀ n ∈ nodes, n.id ≠ k) →
      lookupValue (attachAll s p nodes).item_lookup_ k = lookupValue s.item_lookup_ k := by
  induction nodes with
  | nil => intro s p k _ _; rfl
  | cons x xs ih =>
    intro s p k hp hne
    have hp2 : p < (attach s p x).items.length := by
      rw [attach_length s p x hp]; omega
    rw [attachAll_cons, ih (attach s p x) p k hp2 (fun n hn => hne n (List.mem_cons_of_mem _ hn)),
      attach_lookup s p x hp]
    exact lookupValue_insert_ne _ _ _ _ (fun h => hne x (List.mem_cons_self _ _) h.symm)

theorem LazyPopulate_expandable (s : State) (item : Nat) (it : QStandardItem)
    (hit : s.items[item]? = some it) (htype : it.type = Type_Artist ∨ it.type = Type_Album) :
    LazyPopulate s item = Run.done (GetMusicDirectory s it.id) := by
  rcases htype with h | h <;> simp [LazyPopulate, hit, h]

/-- C15, amended: two `LazyPopulate` calls on an expandable item before any completion
issue two `getMusicDirectory` requests for its id, and when both complete with the same
ok listing that resolves to the item (no entry of it reusing the id of the directory)
the item ends with its former rows followed by the nodes of the listing twice: every
entry appears once per completed request, the service does not de-duplicate. -/
theorem double_expand_appends_twice (debug : Bool) (s : State) (pre : Nat)
    (root : String) (rattrs : Attrs) (gap : Nat) (dattrs : Attrs) (entries rest : Forest)
    (post : List Token) (p : Nat) (it : QStandardItem)
    (hvalid : s.valid = true)
    (hit : s.items[p]? = some it)
    (htype : it.type = Type_Artist ∨ it.type = Type_Album)
    (hok : rattrs.value "status" = "ok")
    (hres : lookupValue s.item_lookup_ (dattrs.value "id") = some p)
    (hfresh : ∀ n ∈ directoryNodes entries, n.id ≠ dattrs.value "id")
    (hroot : debug = true → root = "subsonic-response")
    (hnames : debug = true → ∀ e ∈ entries.elems, e.1 = "child") :
    ∃ s2, ((LazyPopulate s p).bind fun s1 =>
        (LazyPopulate s1 p).bind fun s1b =>
          completeAll s1b
            [Completion.directory debug
              (response pre root rattrs gap "directory" dattrs entries rest post),
             Completion.directory debug
              (response pre root rattrs gap "directory" dattrs entries rest post)]) =
        Run.done s2 ∧
      s2.sent = s.sent ++
        [⟨(BuildRequestUrl s "getMusicDirectory").addQueryItem "id" it.id,
            Slot.onGetMusicDirectoryFinished, true⟩,
          ⟨(BuildRequestUrl s "getMusicDirectory").addQueryItem "id" it.id,
            Slot.onGetMusicDirectoryFinished, true⟩] ∧
      s2.childNodes p =
        s.childNodes p ++ directoryNodes entries ++ directoryNodes entries := by
  have hp := valid_lookup s hvalid _ p hres
  have hrows := valid_rows s hvalid p
  -- the state after the two calls: two more requests, the catalog as it was
  let s1 := GetMusicDirectory s it.id
  let s1b := GetMusicDirectory s1 it.id
  have hitems : s1b.items = s.items := rfl
  have hlook : s1b.item_lookup_ = s.item_lookup_ := rfl
  have h1 : LazyPopulate s p = Run.done s1 := LazyPopulate_expandable s p it hit htype
  have h2 : LazyPopulate s1 p = Run.done s1b := LazyPopulate_expandable s1 p it hit htype
  have hpb : p < s1b.items.length := hp
  have hnames2 : debug = true → ∀ e ∈ entries.elems, directoryEntryNode e ≠ none → e.1 = "child" :=
    fun hd e he _ => hnames hd e he
  have hfirst := onGetMusicDirectoryFinished_eq debug s1b pre root rattrs gap dattrs entries rest
    post p hok hroot hres hpb hnames2
  have hlen := attachAll_length (directoryNodes entries) s1b p hpb
  have hp3 : p < (attachAll s1b p (directoryNodes entries)).items.length := by
    rw [hlen]; omega
  have hres3 : lookupValue (attachAll s1b p (directoryNodes entries)).item_lookup_
      (dattrs.value "id") = some p := by
    rw [attachAll_lookup_ne _ s1b p _ hpb hfresh]
    exact hres
  have hsecond := onGetMusicDirectoryFinished_eq debug
    (attachAll s1b p (directoryNodes entries)) pre root rattrs gap dattrs entries rest
    post p hok hroot hres3 hp3 hnames2
  refine ⟨attachAll s1b p (directoryNodes entries ++ directoryNodes entries), ?_, ?_, ?_⟩
  · rw [h1]
    simp only [Run.bind]
    rw [h2]
    simp only [Run.bind, completeAll, complete]
    rw [hfirst]
    simp only [Run.bind]
    rw [hsecond, attachAll_append]
  · rw [attachAll_sent]
    simp [s1b, s1, GetMusicDirectory, Send, BuildRequestUrl]
  · have hrowsb : rowsAllocated s1b p := hrows
    rw [childNodes_attachAll _ s1b p hpb hrowsb, ← List.append_assoc]
    rfl

/-- C15, amended, at the example catalog: two expansions of Artist 1 and two completions
of the listing with album 2 and track 3 leave two requests and four rows. -/
theorem double_expand_appends_twice_witness :
    ∃ s2, ((LazyPopulate exampleArtist 1).bind fun s1 =>
        (LazyPopulate s1 1).bind fun s1b =>
          completeAll s1b
            [Completion.directory true
              (response 1 "subsonic-response" [("status", "ok")] 0 "directory" [("id", "1")]
                (Forest.elem "child" [("isDir", "true"), ("id", "2"), ("title", "Album1")]
                  Forest.nil
                  (Forest.elem "child"
                    [("isDir", "false"), ("isVideo", "false"), ("id", "3"), ("title", "Track1")]
                    Forest.nil Forest.nil))
                Forest.nil [Token.other]),
             Completion.directory true
              (response 1 "subsonic-response" [("status", "ok")] 0 "directory" [("id", "1")]
                (Forest.elem "child" [("isDir", "true"), ("id", "2"), ("title", "Album1")]
                  Forest.nil
                  (Forest.elem "child"
                    [("isDir", "false"), ("isVideo", "false"), ("id", "3"), ("title", "Track1")]
                    Forest.nil Forest.nil))
                Forest.nil [Token.other])]) = Run.done s2 ∧
      s2.sent.length = 2 ∧
      s2.childNodes 1 =
        [{ text := "Album1", type := Type_Album, canLazyLoad := true, id := "2", children := [] },
         { text := "Track1", type := Type_Track, canLazyLoad := false, id := "3", children := [] },
         { text := "Album1", type := Type_Album, canLazyLoad := true, id := "2", children := [] },
         { text := "Track1", type := Type_Track, canLazyLoad := false, id := "3",
           children := [] }] := by
  obtain ⟨s2, h1, h2, h3⟩ := double_expand_appends_twice true exampleArtist 1
    "subsonic-response" [("status", "ok")] 0 [("id", "1")]
    (Forest.elem "child" [("isDir", "true"), ("id", "2"), ("title", "Album1")] Forest.nil
      (Forest.elem "child"
        [("isDir", "false"), ("isVideo", "false"), ("id", "3"), ("title", "Track1")]
        Forest.nil Forest.nil))
    Forest.nil [Token.other] 1
    { text := "A", type := Type_Artist, canLazyLoad := true, id := "1", children := [] }
    (by decide) (by decide) (Or.inl rfl) (by decide) (by decide) (by decide) (fun _ => rfl)
    (by decide)
  exact ⟨s2, h1, by rw [h2]; rfl, by rw [h3]; decide⟩

/-- C5, where the code departs from it: `ReadIndex` hands every element of an `index`
group to `ReadArtist`, so a group holding the artist 1 and a video-flagged `child`
gives the root two Artist rows in a release build, where the claim has the single
Artist of the `artist` entry, and stops the run on the `Q_ASSERT` of `ReadArtist` in
a debug build. -/
theorem index_group_element_becomes_artist :
    Run.map (fun s2 => s2.childNodes s2.root_)
      (onGetIndexesFinished false exampleRoot
        (response 1 "subsonic-response" [("status", "ok")] 0 "indexes" []
          (Forest.elem "index" [("name", "A")]
            (Forest.elem "artist" [("id", "1"), ("name", "A")] Forest.nil
              (Forest.elem "child" [("id", "9"), ("title", "Clip"), ("isVideo", "true")]
                Forest.nil Forest.nil))
            Forest.nil)
          Forest.nil [Token.other])) =
      Run.done
        [{ text := "A", type := Type_Artist, canLazyLoad := true, id := "1", children := [] },
         { text := "", type := Type_Artist, canLazyLoad := true, id := "9", children := [] }] ∧
    indexNodes
        (Forest.elem "index" [("name", "A")]
          (Forest.elem "artist" [("id", "1"), ("name", "A")] Forest.nil
            (Forest.elem "child" [("id", "9"), ("title", "Clip"), ("isVideo", "true")]
              Forest.nil Forest.nil))
          Forest.nil) =
      [{ text := "A", type := Type_Artist, canLazyLoad := true, id := "1", children := [] }] ∧
    onGetIndexesFinished true exampleRoot
        (response 1 "subsonic-response" [("status", "ok")] 0 "indexes" []
          (Forest.elem "index" [("name", "A")]
            (Forest.elem "artist" [("id", "1"), ("name", "A")] Forest.nil
              (Forest.elem "child" [("id", "9"), ("title", "Clip"), ("isVideo", "true")]
                Forest.nil Forest.nil))
            Forest.nil)
          Forest.nil [Token.other]) = Run.assertFailed := by
  decide

end Subsonic
